/-
Verification of the nixos-cursor tool-belt repository.

Shallow embedding of the Python sources into Lean 4:
* `MD5`          — the `hashlib.md5(...).hexdigest()` primitive used by
                   `src/cursor/chat_db.py` for conversation content hashes,
                   implemented bit-for-bit (RFC 1321) over byte lists.
* `ChatDb`       — `ChatDatabase.import_from_cursor` (src/cursor/chat_db.py).
* `ContextInject`— the context injection store (src/scripts/python/cursor_context_inject.py).
* `DocsMcp`      — `chunk_text` (src/scripts/python/cursor_docs_mcp.py).
* `SyncVersions` — `compare_versions` (src/scripts/python/sync_cursor_versions.py).
* `Wire`         — `encode_varint` (src/tools/cursor-agent-tui/decode_response.py),
                   `read_varint` and `decode_protobuf` (src/tools/proxy-test/decode_protobuf.py).
* `AgentService` — `execute_tool` (src/tools/desktop-automation/agent-service.py).

Machine integers are modelled as `Nat` with explicit `% 2 ^ 32` masking where
the Python code relies on 32-bit wrap-around (inside MD5); Python byte strings
are `List Nat` with every element < 256; fallible code returns `Except`/`Option`.
-/
import Mathlib

set_option maxRecDepth 100000

namespace MD5

/-- 2^32, the modulus for all 32-bit arithmetic inside MD5. -/
def M32 : Nat := 4294967296

/-- 32-bit bitwise complement. -/
def not32 (x : Nat) : Nat := x ^^^ 4294967295

/-- 32-bit left rotation. -/
def rotl32 (x s : Nat) : Nat := ((x <<< s) ||| (x >>> (32 - s))) % M32

/-- Round function F (rounds 0-15). -/
def auxF (b c d : Nat) : Nat := (b &&& c) ||| (not32 b &&& d)

/-- Round function G (rounds 16-31). -/
def auxG (b c d : Nat) : Nat := (d &&& b) ||| (not32 d &&& c)

/-- Round function H (rounds 32-47). -/
def auxH (b c d : Nat) : Nat := b ^^^ c ^^^ d

/-- Round function I (rounds 48-63). -/
def auxI (b c d : Nat) : Nat := c ^^^ (b ||| not32 d)

/-- The 64 MD5 round constants, K[i] = floor(2^32 * |sin(i+1)|). -/
def K : List Nat :=
  [3614090360, 3905402710, 606105819, 3250441966, 4118548399, 1200080426,
   2821735955, 4249261313, 1770035416, 2336552879, 4294925233, 2304563134,
   1804603682, 4254626195, 2792965006, 1236535329, 4129170786, 3225465664,
   643717713, 3921069994, 3593408605, 38016083, 3634488961, 3889429448,
   568446438, 3275163606, 4107603335, 1163531501, 2850285829, 4243563512,
   1735328473, 2368359562, 4294588738, 2272392833, 1839030562, 4259657740,
   2763975236, 1272893353, 4139469664, 3200236656, 681279174, 3936430074,
   3572445317, 76029189, 3654602809, 3873151461, 530742520, 3299628645,
   4096336452, 1126891415, 2878612391, 4237533241, 1700485571, 2399980690,
   4293915773, 2240044497, 1873313359, 4264355552, 2734768916, 1309151649,
   4149444226, 3174756917, 718787259, 3951481745]

/-- The 64 per-round left-rotation amounts. -/
def S : List Nat :=
  [7, 12, 17, 22, 7, 12, 17, 22, 7, 12, 17, 22, 7, 12, 17, 22,
   5, 9, 14, 20, 5, 9, 14, 20, 5, 9, 14, 20, 5, 9, 14, 20,
   4, 11, 16, 23, 4, 11, 16, 23, 4, 11, 16, 23, 4, 11, 16, 23,
   6, 10, 15, 21, 6, 10, 15, 21, 6, 10, 15, 21, 6, 10, 15, 21]

/-- Message-word index used in round i. -/
def gIdx (i : Nat) : Nat :=
  if i < 16 then i
  else if i < 32 then (5 * i + 1) % 16
  else if i < 48 then (3 * i + 5) % 16
  else (7 * i) % 16

/-- One MD5 round: state (a,b,c,d) plus the current block's 16 words. -/
def md5Round (m : List Nat) (st : Nat × Nat × Nat × Nat) (i : Nat) :
    Nat × Nat × Nat × Nat :=
  let a := st.1
  let b := st.2.1
  let c := st.2.2.1
  let d := st.2.2.2
  let f :=
    if i < 16 then auxF b c d
    else if i < 32 then auxG b c d
    else if i < 48 then auxH b c d
    else auxI b c d
  let tmp := (a + f + K.getD i 0 + m.getD (gIdx i) 0) % M32
  (d, (b + rotl32 tmp (S.getD i 0)) % M32, b, c)

/-- Process one 64-byte block (given as 16 little-endian 32-bit words). -/
def md5Block (st : Nat × Nat × Nat × Nat) (m : List Nat) :
    Nat × Nat × Nat × Nat :=
  let r := (List.range 64).foldl (md5Round m) st
  ((st.1 + r.1) % M32, (st.2.1 + r.2.1) % M32,
   (st.2.2.1 + r.2.2.1) % M32, (st.2.2.2 + r.2.2.2) % M32)

/-- n rendered as `len` little-endian bytes. -/
def toLE (n len : Nat) : List Nat :=
  (List.range len).map (fun i => (n >>> (8 * i)) &&& 255)

/-- MD5 padding: 0x80, zeros to 56 mod 64, then the 64-bit LE bit length. -/
def padBytes (msg : List Nat) : List Nat :=
  let z := (120 - ((msg.length + 1) % 64)) % 64
  msg ++ [128] ++ List.replicate z 0 ++ toLE ((msg.length * 8) % 2 ^ 64) 8

/-- Split a byte list into 64-byte blocks (fuel-indexed structural recursion;
`chunks64` supplies enough fuel for any input). -/
def chunks64Go : Nat → List Nat → List (List Nat)
  | 0, _ => []
  | _ + 1, [] => []
  | fuel + 1, l => l.take 64 :: chunks64Go fuel (l.drop 64)

/-- Split a byte list into 64-byte blocks. -/
def chunks64 (l : List Nat) : List (List Nat) := chunks64Go l.length l

/-- Convert a 64-byte block to 16 little-endian 32-bit words. -/
def toWords (blk : List Nat) : List Nat :=
  (List.range 16).map (fun j =>
    blk.getD (4 * j) 0 + 256 * blk.getD (4 * j + 1) 0 +
    65536 * blk.getD (4 * j + 2) 0 + 16777216 * blk.getD (4 * j + 3) 0)

/-- The four final MD5 state words for a byte-list message. -/
def md5Words (msg : List Nat) : Nat × Nat × Nat × Nat :=
  (chunks64 (padBytes msg)).foldl (fun st blk => md5Block st (toWords blk))
    (1732584193, 4023233417, 2562383102, 271733878)

/-- The 16 digest bytes. -/
def md5Bytes (msg : List Nat) : List Nat :=
  let w := md5Words msg
  toLE w.1 4 ++ toLE w.2.1 4 ++ toLE w.2.2.1 4 ++ toLE w.2.2.2 4

/-- One lowercase hex digit. -/
def hexDigit (n : Nat) : Char :=
  if n < 10 then Char.ofNat (48 + n) else Char.ofNat (87 + n)

/-- Two lowercase hex digits for one byte. -/
def byteHex (b : Nat) : List Char := [hexDigit (b / 16), hexDigit (b % 16)]

/-- `hashlib.md5(msg).hexdigest()`: the 32-character lowercase hex digest. -/
def md5Hex (msg : List Nat) : String :=
  String.mk ((md5Bytes msg).map byteHex).flatten

/-- Python `str.encode()` of one character (UTF-8). -/
def utf8EncodeChar (c : Char) : List Nat :=
  let n := c.toNat
  if n < 128 then [n]
  else if n < 2048 then [192 ||| (n >>> 6), 128 ||| (n &&& 63)]
  else if n < 65536 then
    [224 ||| (n >>> 12), 128 ||| ((n >>> 6) &&& 63), 128 ||| (n &&& 63)]
  else
    [240 ||| (n >>> 18), 128 ||| ((n >>> 12) &&& 63),
     128 ||| ((n >>> 6) &&& 63), 128 ||| (n &&& 63)]

/-- Python `str.encode()`: UTF-8 bytes of a string. -/
def utf8Encode (s : String) : List Nat := (s.data.map utf8EncodeChar).flatten

example : md5Hex [] = "d41d8cd98f00b204e9800998ecf8427e" := by decide

example : md5Hex (utf8Encode "abc") = "900150983cd24fb0d6963f7d28e17f72" := by
  decide

example : md5Hex (utf8Encode "The quick brown fox jumps over the lazy dog") =
    "9e107d9d372bb6826bd81d3542a419d6" := by decide

example : md5Hex (utf8Encode (String.mk (List.replicate 64 'a'))) =
    "014842d480b571495a4a0363793f7367" := by decide

end MD5

namespace ChatDb

/-- What `import_from_cursor` observes of `json.loads(value)` for one bubble:
either a parsed object with the four fields the code accesses (`type`, `text`,
`rawText`, `bubbleId`), or a parse failure carrying the exception text.  The
embedding carries this outcome as data on the bubble because it does not
include a JSON parser; the content hash below uses only the raw `value`
string, exactly as the source does (chat_db.py lines 186-188). -/
inductive ParseOutcome where
  | ok (type : Option Int) (text : Option String) (rawText : Option String)
      (bubbleId : Option String)
  | err (msg : String)
deriving DecidableEq

/-- One `cursorDiskKV` row for a conversation: `key` (`bubbleId:<conv>:<id>`)
and the raw `value` (as the Python `str(m[1])`), plus its parse outcome. -/
structure Bubble where
  key : String
  value : String
  parse : ParseOutcome
deriving DecidableEq

/-- `"".join(str(m[1]) for m in messages_data)` (chat_db.py line 187). -/
def contentString (bs : List Bubble) : String :=
  String.join (bs.map (·.value))

/-- The conversation content hash:
`hashlib.md5("".join(...).encode()).hexdigest()` (chat_db.py lines 186-188). -/
def contentHash (bs : List Bubble) : String :=
  MD5.md5Hex (MD5.utf8Encode (contentString bs))

/-- One row of the archive `conversations` table — the columns written by the
import; the remaining columns take their schema defaults. -/
structure ConvRow where
  id : String
  source_version : String
  original_title : String
  message_count : Nat
  content_hash : String
deriving DecidableEq

/-- The `json.dumps({"type": ..., "bubbleId": ...})` metadata payload,
modelled by its content. -/
structure MsgMeta where
  type : Option Int
  bubbleId : Option String
deriving DecidableEq

/-- One row of the archive `messages` table — the columns written by the
import. -/
structure MsgRow where
  id : String
  conversation_id : String
  sequence : Nat
  role : String
  content : String
  raw_content : String
  metadata : MsgMeta
deriving DecidableEq

/-- The archive database state touched by `import_from_cursor`. -/
structure DBState where
  conversations : List ConvRow
  messages : List MsgRow
deriving DecidableEq

/-- The summary dictionary built by `import_from_cursor` (its `success` key is
always true on the paths modelled here, where the host database exists and
sqlite raises nothing). -/
structure ImportResults where
  imported : Nat
  skipped : Nat
  errors : List String
deriving DecidableEq

/-- Python `msg.get("text") or msg.get("rawText") or ""`: the first value that
is truthy (present and non-empty), else the empty string. -/
def orText (a b : Option String) : String :=
  match a with
  | some s =>
    if s ≠ "" then s
    else match b with
      | some t => if t ≠ "" then t else ""
      | none => ""
  | none =>
    match b with
    | some t => if t ≠ "" then t else ""
    | none => ""

/-- Python `str.split(":")` on a code-point list. -/
def splitOnColon : List Char → List (List Char)
  | [] => [[]]
  | c :: rest =>
    let r := splitOnColon rest
    if c == ':' then [] :: r
    else
      match r with
      | h :: t => (c :: h) :: t
      | [] => [[c]]

/-- Python `key.split(":")[-1]`. -/
def lastSegment (key : String) : String :=
  String.mk ((splitOnColon key.data).getLastD [])

/-- One entry of the in-loop `messages` list (chat_db.py lines 218-228). -/
structure ParsedMsg where
  id : String
  sequence : Nat
  role : String
  content : String
  raw : String
  metadata : MsgMeta
deriving DecidableEq

/-- The message-parsing loop (chat_db.py lines 205-230): returns the parsed
message list, the final title-candidate list, and the accumulated parse-error
strings.  `i` is the `enumerate` index and `cands` the candidates so far. -/
def parseMessages : List Bubble → Nat → List String →
    List ParsedMsg × List String × List String
  | [], _, cands => ([], cands, [])
  | b :: rest, i, cands =>
    match b.parse with
    | .err e =>
      let r := parseMessages rest (i + 1) cands
      (r.1, r.2.1, ("Message parse error: " ++ e) :: r.2.2)
    | .ok ty tx rtx bid =>
      let role := if ty = some 1 then "assistant" else "user"
      let content := orText tx rtx
      let cands2 :=
        if role = "user" ∧ content ≠ "" ∧ cands.length < 3 then
          cands ++ [content.take 100]
        else cands
      let m : ParsedMsg := ⟨lastSegment b.key, i, role, content, b.value, ⟨ty, bid⟩⟩
      let r := parseMessages rest (i + 1) cands2
      (m :: r.1, r.2.1, r.2.2)

/-- Title generation (chat_db.py lines 236-240). -/
def mkTitle (cands : List String) : String :=
  match cands with
  | [] => "Untitled Chat"
  | t :: _ => if t.length > 60 then t.take 57 ++ "..." else t

/-- `INSERT OR IGNORE INTO messages` for each parsed message, in order:
a row is dropped when its primary key `id` is already present. -/
def insertMessages (convId : String) (rows : List MsgRow) :
    List ParsedMsg → List MsgRow
  | [] => rows
  | m :: rest =>
    let rows2 :=
      if rows.any (fun r => r.id == m.id) then rows
      else rows ++ [⟨m.id, convId, m.sequence, m.role, m.content, m.raw, m.metadata⟩]
    insertMessages convId rows2 rest

/-- The duplicate check `SELECT id FROM conversations WHERE content_hash = ?`
(chat_db.py lines 191-195): whether some stored conversation row carries the
hash. -/
def hashExists (s : DBState) (h : String) : Bool :=
  s.conversations.any (fun c => c.content_hash == h)

/-- The body of the per-conversation loop of `import_from_cursor`
(chat_db.py lines 173-261) acting on the accumulated state and result
summary.  A conversation is a pair of its id and its bubbles, already ordered
by key as the `ORDER BY key` query returns them. -/
def processConv (version : String) (acc : DBState × ImportResults)
    (conv : String × List Bubble) : DBState × ImportResults :=
  let s := acc.1
  let r := acc.2
  if conv.2.isEmpty then acc
  else
    let h := contentHash conv.2
    if hashExists s h then
      (s, { r with skipped := r.skipped + 1 })
    else
      let p := parseMessages conv.2 0 []
      let r2 := { r with errors := r.errors ++ p.2.2 }
      if p.1.isEmpty then (s, r2)
      else
        let s2 : DBState :=
          { conversations :=
              s.conversations ++ [⟨conv.1, version, mkTitle p.2.1, p.1.length, h⟩],
            messages := insertMessages conv.1 s.messages p.1 }
        (s2, { r2 with imported := r2.imported + 1 })

/-- `ChatDatabase.import_from_cursor` (chat_db.py lines 149-271) on an
existing host database, modelled as the list of its conversations (each with
its key-ordered bubbles), run against an archive state. -/
def importFromCursor (version : String) (host : List (String × List Bubble))
    (s : DBState) : DBState × ImportResults :=
  host.foldl (processConv version) (s, ⟨0, 0, []⟩)

/-- The multiset of stored content hashes. -/
def hashes (s : DBState) : List String := s.conversations.map (·.content_hash)

end ChatDb

namespace Wire

/-- Fuel-indexed body of `encode_varint`; `encode_varint` supplies enough
fuel (the value itself) for the loop to run to completion. -/
def encodeVarintGo : Nat → Nat → List Nat
  | 0, v => [v]
  | fuel + 1, v =>
    if v > 127 then ((v &&& 127) ||| 128) :: encodeVarintGo fuel (v >>> 7)
    else [v]

/-- `encode_varint` (decode_response.py lines 18-24). -/
def encode_varint (v : Nat) : List Nat := encodeVarintGo v v

/-- Fuel-indexed body of the `read_varint` loop; the wrapper passes
`data.length - offset` so that zero fuel coincides exactly with the loop
condition `offset < len(data)` failing. -/
def readVarintGo (data : List Nat) : Nat → Nat → Nat → Nat →
    Except String (Nat × Nat)
  | 0, offset, value, _ => .ok (value, offset)
  | fuel + 1, offset, value, shift =>
    let byte := data.getD offset 0
    let value2 := value ||| ((byte &&& 127) <<< shift)
    if byte &&& 128 == 0 then .ok (value2, offset + 1)
    else if shift + 7 > 63 then .error "Varint too long"
    else readVarintGo data fuel (offset + 1) value2 (shift + 7)

/-- `read_varint` (decode_protobuf.py lines 44-57).  The `ValueError` raised
when `shift > 63` is the `.error` case. -/
def read_varint (data : List Nat) (offset : Nat) : Except String (Nat × Nat) :=
  readVarintGo data (data.length - offset) offset 0 0

theorem readVarintGo_le (data : List Nat) : ∀ fuel offset value shift v o,
    readVarintGo data fuel offset value shift = .ok (v, o) → offset ≤ o := by
  intro fuel
  induction fuel with
  | zero =>
    intro offset value shift v o h
    simp only [readVarintGo, Except.ok.injEq, Prod.mk.injEq] at h
    omega
  | succ f ih =>
    intro offset value shift v o h
    simp only [readVarintGo] at h
    split at h
    · simp only [Except.ok.injEq, Prod.mk.injEq] at h
      omega
    · split at h
      · exact absurd h (by simp)
      · exact Nat.le_of_succ_le (ih (offset + 1) _ _ v o h)

theorem read_varint_le (data : List Nat) (offset v o : Nat)
    (h : read_varint data offset = .ok (v, o)) : offset ≤ o :=
  readVarintGo_le data _ offset 0 0 v o h

theorem read_varint_gt (data : List Nat) (offset v o : Nat)
    (hlt : offset < data.length) (h : read_varint data offset = .ok (v, o)) :
    offset < o := by
  unfold read_varint at h
  have hf : data.length - offset = (data.length - offset - 1) + 1 := by omega
  rw [hf] at h
  simp only [readVarintGo] at h
  split at h
  · simp only [Except.ok.injEq, Prod.mk.injEq] at h
    omega
  · split at h
    · exact absurd h (by simp)
    · exact readVarintGo_le data _ (offset + 1) _ _ v o h

/-- Models Python `str.isprintable()`.  Exact on ASCII (printable iff not a
control character); non-ASCII code points are treated as printable except the
C1 controls, no-break/format/separator characters commonly hit here
(U+00A0 is a Zs space, U+00AD soft hyphen, U+2000-U+200F, U+2028/U+2029
line/paragraph separators, U+202A-U+202F, U+205F, U+3000, U+FEFF). -/
def pyIsPrintable (c : Char) : Bool :=
  let n := c.toNat
  !(n < 32 || (127 ≤ n && n ≤ 160) || n == 173 || (8192 ≤ n && n ≤ 8207) ||
    (8232 ≤ n && n ≤ 8239) || n == 8287 || n == 12288 || n == 65279)

/-- The per-character test of decode_protobuf.py line 134:
`c.isprintable() or c in '\n\r\t'`. -/
def printableOrAllowed (c : Char) : Bool :=
  pyIsPrintable c || c == '\n' || c == '\r' || c == '\t'

/-- Strict UTF-8 decoding, as Python `bytes.decode('utf-8')`: rejects
truncated sequences, bad continuation bytes, overlong forms, surrogates and
code points above U+10FFFF.  `none` is the `UnicodeDecodeError` case. -/
def utf8Decode : List Nat → Option (List Char)
  | [] => some []
  | b :: rest =>
    if b < 128 then
      match utf8Decode rest with
      | some cs => some (Char.ofNat b :: cs)
      | none => none
    else if 194 ≤ b && b ≤ 223 then
      match rest with
      | c1 :: r2 =>
        if 128 ≤ c1 && c1 ≤ 191 then
          match utf8Decode r2 with
          | some cs => some (Char.ofNat ((b - 192) * 64 + (c1 - 128)) :: cs)
          | none => none
        else none
      | [] => none
    else if 224 ≤ b && b ≤ 239 then
      match rest with
      | c1 :: c2 :: r2 =>
        if (if b == 224 then 160 ≤ c1 && c1 ≤ 191
            else if b == 237 then 128 ≤ c1 && c1 ≤ 159
            else 128 ≤ c1 && c1 ≤ 191) && (128 ≤ c2 && c2 ≤ 191) then
          match utf8Decode r2 with
          | some cs =>
            some (Char.ofNat ((b - 224) * 4096 + (c1 - 128) * 64 + (c2 - 128)) :: cs)
          | none => none
        else none
      | _ => none
    else if 240 ≤ b && b ≤ 244 then
      match rest with
      | c1 :: c2 :: c3 :: r2 =>
        if (if b == 240 then 144 ≤ c1 && c1 ≤ 191
            else if b == 244 then 128 ≤ c1 && c1 ≤ 143
            else 128 ≤ c1 && c1 ≤ 191) && (128 ≤ c2 && c2 ≤ 191) &&
            (128 ≤ c3 && c3 ≤ 191) then
          match utf8Decode r2 with
          | some cs =>
            some (Char.ofNat ((b - 240) * 262144 + (c1 - 128) * 4096 +
              (c2 - 128) * 64 + (c3 - 128)) :: cs)
          | none => none
        else none
      | _ => none
    else none

/-- The string-decode attempt of decode_protobuf.py lines 132-137: the decoded
text when the content is valid UTF-8 and fully printable, else `none`. -/
def tryDecodeText (content : List Nat) : Option String :=
  match utf8Decode content with
  | some cs => if cs.all printableOrAllowed then some (String.mk cs) else none
  | none => none

/-- A decoded field value (`ProtoField.value`).  Wire types 1 and 5 display an
IEEE float interpretation or hex; floating-point formatting is outside the
embedding, so those displays are modelled by constructors carrying the raw
bytes they are computed from. -/
inductive PValue where
  | int (n : Nat)
  | str (s : String)
  | bytes (b : List Nat)
  | double (raw : List Nat)
  | float (raw : List Nat)

/-- The `wire_type_names.get(...)` lookup (decode_protobuf.py lines 83-89). -/
def wireTypeName (w : Nat) : String :=
  if w = 0 then "varint"
  else if w = 1 then "fixed64"
  else if w = 2 then "length_delimited"
  else if w = 5 then "fixed32"
  else "unknown(" ++ toString w ++ ")"

/-- A decoded Protobuf field (the `ProtoField` dataclass). -/
inductive ProtoField where
  | mk (number : Nat) (wire_type : Nat) (wire_type_name : String)
      (value : PValue) (raw_bytes : List Nat) (children : List ProtoField)

/-- The decoding loop of `decode_protobuf` (decode_protobuf.py lines 60-186)
from a given offset: each iteration decodes one tagged field and conses it
onto the rest; every `break` (bad tag, field number 0, truncated data,
unknown wire type, varint error) returns `[]`. -/
def decodeFrom (data : List Nat) (depth maxDepth offset : Nat) :
    List ProtoField :=
  if depth > maxDepth then []
  else if hoff : offset < data.length then
    match h : read_varint data offset with
    | .error _ => []
    | .ok (tag, o1) =>
      let wire_type := tag &&& 7
      let field_number := tag >>> 3
      if field_number = 0 then []
      else if hw0 : wire_type = 0 then
        match h2 : read_varint data o1 with
        | .error _ => []
        | .ok (value, o2) =>
          ⟨field_number, wire_type, wireTypeName wire_type, .int value, [], []⟩ ::
            decodeFrom data depth maxDepth o2
      else if hw1 : wire_type = 1 then
        if o1 + 8 > data.length then []
        else
          let raw := (data.drop o1).take 8
          ⟨field_number, wire_type, wireTypeName wire_type, .double raw, raw, []⟩ ::
            decodeFrom data depth maxDepth (o1 + 8)
      else if hw2 : wire_type = 2 then
        match h2 : read_varint data o1 with
        | .error _ => []
        | .ok (length, o2) =>
          if o2 + length > data.length then []
          else
            let content := (data.drop o2).take length
            match tryDecodeText content with
            | some sv =>
              ⟨field_number, wire_type, wireTypeName wire_type, .str sv,
                content, []⟩ :: decodeFrom data depth maxDepth (o2 + length)
            | none =>
              let children := decodeFrom content (depth + 1) maxDepth 0
              let value :=
                if children.isEmpty then PValue.bytes content
                else PValue.str ("<nested message with " ++
                  toString children.length ++ " fields>")
              ⟨field_number, wire_type, wireTypeName wire_type, value,
                content, children⟩ :: decodeFrom data depth maxDepth (o2 + length)
      else if hw5 : wire_type = 5 then
        if o1 + 4 > data.length then []
        else
          let raw := (data.drop o1).take 4
          ⟨field_number, wire_type, wireTypeName wire_type, .float raw, raw, []⟩ ::
            decodeFrom data depth maxDepth (o1 + 4)
      else []
  else []
termination_by (maxDepth + 1 - depth, data.length - offset)
decreasing_by
  · apply Prod.Lex.right
    have h1 := read_varint_gt data offset tag o1 hoff h
    have h2b := read_varint_le data o1 value o2 h2
    omega
  · apply Prod.Lex.right
    have h1 := read_varint_gt data offset tag o1 hoff h
    omega
  · apply Prod.Lex.right
    have h1 := read_varint_gt data offset tag o1 hoff h
    have h2b := read_varint_le data o1 length o2 h2
    omega
  · apply Prod.Lex.left
    omega
  · apply Prod.Lex.right
    have h1 := read_varint_gt data offset tag o1 hoff h
    omega

/-- `decode_protobuf` (decode_protobuf.py lines 60-186). -/
def decode_protobuf (data : List Nat) (depth maxDepth : Nat) :
    List ProtoField :=
  decodeFrom data depth maxDepth 0

end Wire

namespace ContextInject

/-- A `ContextItem` (cursor_context_inject.py lines 51-60).  The iso-format
datetime strings `created_at`/`expires_at` are modelled as integers ordered
exactly as the datetimes they render; `datetime.fromisoformat` is then the
identity and `datetime.now()` is an explicit `now` argument. -/
structure ContextItem where
  key : String
  content : String
  priority : Int
  category : String
  created_at : Int
  expires_at : Option Int
  source : Option String
deriving DecidableEq

/-- The store's `items` dict: an insertion-ordered association list with
unique keys, as a Python dict. -/
structure ContextStore where
  items : List (String × ContextItem)
deriving DecidableEq

/-- `ContextStore.add`: upsert by key (replacement keeps the dict position,
as for a Python dict). -/
def addItem (store : ContextStore) (item : ContextItem) : ContextStore :=
  if store.items.any (fun kv => kv.1 == item.key) then
    { items := store.items.map
        (fun kv => if kv.1 == item.key then (kv.1, item) else kv) }
  else { items := store.items ++ [(item.key, item)] }

/-- `self.items.values()`. -/
def values (store : ContextStore) : List ContextItem := store.items.map (·.2)

/-- The expiry check of `search` (lines 110-113): skip iff `expires_at` is
set and strictly before `now`. -/
def isExpired (now : Int) (it : ContextItem) : Bool :=
  match it.expires_at with
  | some t => decide (t < now)
  | none => false

/-- Python `sub in s` for strings: some index where `sub` occurs. -/
def strContains (hay pat : List Char) : Bool :=
  (List.range (hay.length + 1)).any (fun i => (hay.drop i).take pat.length == pat)

/-- Python `str.lower()` on a code-point list (exact on ASCII; the full
Unicode case map is outside the embedding). -/
def pyLower (l : List Char) : List Char := l.map Char.toLower

/-- `query_lower in item.key.lower() or ... content ... or ... category ...`
(lines 120-122). -/
def matchesQuery (q : String) (it : ContextItem) : Bool :=
  let ql := pyLower q.data
  strContains (pyLower it.key.data) ql ||
    strContains (pyLower it.content.data) ql ||
    strContains (pyLower it.category.data) ql

/-- `if category and item.category != category: continue` (lines 116-117). -/
def catMatches (category : Option String) (it : ContextItem) : Bool :=
  match category with
  | some c => it.category == c
  | none => true

/-- One step of the stable descending-priority ordering that
`results.sort(key=lambda x: x.priority, reverse=True)` produces. -/
def insertByPriority (x : ContextItem) : List ContextItem → List ContextItem
  | [] => [x]
  | y :: ys =>
    if x.priority ≥ y.priority then x :: y :: ys else y :: insertByPriority x ys

/-- Python `list.sort(key=..., reverse=True)`: stable, descending by
priority. -/
def sortByPriorityDesc (l : List ContextItem) : List ContextItem :=
  l.foldr insertByPriority []

/-- `ContextStore.search` (lines 104-127). -/
def search (store : ContextStore) (now : Int) (query : String)
    (category : Option String) : List ContextItem :=
  sortByPriorityDesc ((values store).filter (fun it =>
    !isExpired now it && catMatches category it && matchesQuery query it))

/-- `ContextStore.get_by_category` (lines 129-134). -/
def get_by_category (store : ContextStore) (category : String) :
    List ContextItem :=
  (values store).filter (fun it => it.category == category)

/-- The rows rendered by the `list_injected_context` tool (lines 247-264):
every stored item, sorted by priority descending, with no expiry filter. -/
def listRows (store : ContextStore) : List ContextItem :=
  sortByPriorityDesc (values store)

/-- `max(1, min(10, priority))` (line 203). -/
def clamp (p : Int) : Int := max 1 (min 10 p)

/-- The `inject_context` tool (lines 171-211); returns the updated store.
`if expires_hours:` treats 0 as falsy, exactly as Python does. -/
def inject_context (store : ContextStore) (now : Int) (key content : String)
    (category : String) (priority : Int) (expires_hours : Option Int)
    (source : Option String) : ContextStore :=
  let expires_at :=
    match expires_hours with
    | some h => if h ≠ 0 then some (now + h) else none
    | none => none
  addItem store ⟨key, content, clamp priority, category, now, expires_at, source⟩

/-- `cli_add` (lines 356-366); returns the updated store. -/
def cli_add (store : ContextStore) (now : Int) (key content : String)
    (category : String) (priority : Int) : ContextStore :=
  addItem store ⟨key, content, priority, category, now, none, none⟩

/-- The `summarize_conversation_for_injection` tool (lines 281-308). -/
def summarize_for_injection (store : ContextStore) (now : Int)
    (conversation_summary key : String) (priority : Int) : ContextStore :=
  addItem store
    ⟨key, conversation_summary, priority, "conversation", now, none,
      some "conversation_summary"⟩

/-- The `inject_project_context` tool (lines 310-337). -/
def inject_project_context (store : ContextStore) (now : Int)
    (project_name context : String) (priority : Int) : ContextStore :=
  addItem store
    ⟨"project:" ++ project_name, context, priority, "project", now, none, none⟩

end ContextInject

namespace DocsMcp

/-- `CHUNK_SIZE` (cursor_docs_mcp.py line 56). -/
def CHUNK_SIZE : Nat := 1500

/-- `CHUNK_OVERLAP` (cursor_docs_mcp.py line 57). -/
def CHUNK_OVERLAP : Nat := 200

/-- Python `str.strip()` whitespace (the ASCII whitespace class; Python also
strips some further Unicode space code points, not needed here). -/
def pyIsSpace (c : Char) : Bool :=
  c == ' ' || c == '	' || c == '
' || c == '
' || c.toNat == 11 ||
    c.toNat == 12

/-- Python `str.strip()` on a code-point list. -/
def pyStrip (l : List Char) : List Char :=
  ((l.dropWhile pyIsSpace).reverse.dropWhile pyIsSpace).reverse

/-- Whether `pat` occurs in `s` at index `i`. -/
def matchAt (s pat : List Char) (i : Nat) : Bool :=
  (s.drop i).take pat.length == pat

/-- Python `str.rfind(pat, b, e)`: the largest index of an occurrence of
`pat` lying fully inside `[b, e)`, as an `Option` (`none` is Python's -1). -/
def pyRfind (pat s : List Char) (b e : Nat) : Option Nat :=
  ((List.range (s.length + 1)).filter (fun i =>
    decide (b ≤ i) && decide (i + pat.length ≤ e) &&
    decide (i + pat.length ≤ s.length) && matchAt s pat i)).max?

/-- `break > start + chunk_size // 2`, with `none` playing Python's -1. -/
def afterMid (o : Option Nat) (mid : Nat) : Bool :=
  match o with
  | some i => decide (mid < i)
  | none => false

/-- The `end` chosen for the chunk starting at `start`
(cursor_docs_mcp.py lines 174-186). -/
def chunkEnd (text : List Char) (chunk_size start : Nat) : Nat :=
  let e0 := start + chunk_size
  if e0 < text.length then
    let mid := start + chunk_size / 2
    let para := pyRfind [Char.ofNat 10, Char.ofNat 10] text start e0
    if afterMid para mid then para.getD 0
    else
      let sent := pyRfind ['.', ' '] text start e0
      if afterMid sent mid then sent.getD 0 + 1
      else e0
  else e0

/-- `text[start:end].strip()` (line 188). -/
def chunkSlice (text : List Char) (chunk_size start : Nat) : List Char :=
  pyStrip ((text.drop start).take (chunkEnd text chunk_size start - start))

/-- `start = end - overlap if end < len(text) else end` (line 192). -/
def nextStart (text : List Char) (chunk_size overlap start : Nat) : Nat :=
  let e := chunkEnd text chunk_size start
  if e < text.length then e - overlap else e

/-- The `while start < len(text)` loop of `chunk_text`, fuel-indexed;
`none` models a loop that does not finish within the given fuel (for the
default parameters the fuel passed by `chunk_text` always suffices —
that is the termination theorem below). -/
def chunkTextGo (text : List Char) (chunk_size overlap : Nat) :
    Nat → Nat → List (List Char) → Option (List (List Char))
  | 0, _, _ => none
  | fuel + 1, start, acc =>
    if start < text.length then
      let chunk := chunkSlice text chunk_size start
      let acc2 := if chunk.isEmpty then acc else acc ++ [chunk]
      chunkTextGo text chunk_size overlap fuel
        (nextStart text chunk_size overlap start) acc2
    else some acc

/-- `chunk_text` (cursor_docs_mcp.py lines 168-194) on a code-point list. -/
def chunk_text (text : List Char) (chunk_size overlap : Nat) :
    Option (List (List Char)) :=
  chunkTextGo text chunk_size overlap (text.length + 1) 0 []

end DocsMcp

namespace SyncVersions

/-- One record of a `version-history.json` registry: the `version` string the
comparison keys on, plus the rest of the record (release date, per-platform
download URLs) carried through unchanged. -/
structure VersionRecord where
  version : String
  date : String
  platforms : List (String × String)
deriving DecidableEq

/-- A version registry (`{"versions": [...]}`). -/
structure Registry where
  versions : List VersionRecord
deriving DecidableEq

/-- `compare_versions` (sync_cursor_versions.py lines 75-85). -/
def compare_versions (github localReg : Registry) : List VersionRecord :=
  github.versions.filter
    (fun v => !(localReg.versions.map (fun w => w.version)).contains v.version)

end SyncVersions

namespace AgentService

/-- The `ToolResult` dataclass (agent-service.py lines 77-81); the claims
never inspect `data`, whose dict payload is modelled as an association
list. -/
structure ToolResult where
  success : Bool
  data : Option (List (String × String))
  error : Option String
deriving DecidableEq

/-- The keys of the `TOOLS` dispatch dict (agent-service.py lines 341-357). -/
def TOOLS : List String :=
  ["windows_list", "windows_search", "windows_focus", "windows_move",
   "windows_close", "mouse_move", "mouse_click", "type_text", "press_key",
   "screenshot_monitor", "screenshot_window", "screenshot_full",
   "desktop_switch", "desktop_create", "system_status"]

/-- `execute_tool` (agent-service.py lines 359-368).  The lambdas stored in
`TOOLS` shell out to desktop utilities, so their behaviour is environmental:
`impl` gives, per tool name and parameter dict, either the `ToolResult` the
lambda returns or the message of the exception it raises.  `asdict` is the
identity here because `ToolResult` is modelled directly rather than as a
dict. -/
def execute_tool
    (impl : String → List (String × String) → Except String ToolResult)
    (name : String) (params : List (String × String)) : ToolResult :=
  if !TOOLS.contains name then ⟨false, none, some ("Unknown tool: " ++ name)⟩
  else
    match impl name params with
    | .ok r => r
    | .error e => ⟨false, none, some e⟩

end AgentService


namespace ContextInject

theorem mem_insertByPriority (x y : ContextItem) (l : List ContextItem) :
    x ∈ insertByPriority y l ↔ x = y ∨ x ∈ l := by
  induction l with
  | nil => simp [insertByPriority]
  | cons z t ih =>
    simp only [insertByPriority]
    split
    · simp
    · simp only [List.mem_cons, ih]
      tauto

theorem mem_sortByPriorityDesc (x : ContextItem) (l : List ContextItem) :
    x ∈ sortByPriorityDesc l ↔ x ∈ l := by
  induction l with
  | nil => simp [sortByPriorityDesc]
  | cons y t ih =>
    simp only [sortByPriorityDesc, List.foldr_cons, mem_insertByPriority,
      List.mem_cons]
    rw [sortByPriorityDesc] at ih
    rw [ih]

theorem mem_values_addItem (st : ContextStore) (item it : ContextItem) :
    it ∈ values (addItem st item) → it ∈ values st ∨ it = item := by
  intro h
  unfold addItem at h
  split at h
  · rcases List.mem_map.mp h with ⟨kv, hkv, hkv2⟩
    rcases List.mem_map.mp hkv with ⟨kv0, hkv0, hf⟩
    by_cases hk : kv0.1 == item.key
    · right
      rw [if_pos hk] at hf
      rw [← hkv2, ← hf]
    · left
      rw [if_neg hk] at hf
      rw [← hkv2, ← hf]
      exact List.mem_map.mpr ⟨kv0, hkv0, rfl⟩
  · rcases List.mem_map.mp h with ⟨kv, hkv, hkv2⟩
    rcases List.mem_append.mp hkv with h1 | h1
    · exact Or.inl (List.mem_map.mpr ⟨kv, h1, hkv2⟩)
    · right
      simp only [List.mem_singleton] at h1
      rw [← hkv2, h1]

end ContextInject

/-- An item whose expiry timestamp (10) is strictly before the chosen current
time (20), stored under the category `memory`. -/
def expiredItem : ContextInject.ContextItem :=
  ⟨"k", "some content", 5, "memory", 0, some 10, none⟩

/-- A store holding exactly `expiredItem`. -/
def expiredStore : ContextInject.ContextStore := ⟨[("k", expiredItem)]⟩

/-- C2 counterexample: an expired context item (expiry 10 < now 20) is NOT
excluded from the category-scoped listing `get_by_category` — the code
(cursor_context_inject.py lines 129-134) filters only by category, with no
expiry check — refuting the claim that expired items are excluded from the
category-scoped listing. -/
theorem c2_counterexample :
    ContextInject.isExpired 20 expiredItem = true ∧
    expiredItem ∈ ContextInject.get_by_category expiredStore "memory" := by
  decide

/-- C2 (amended): an item whose expiry timestamp is strictly before the
current time is excluded from `search`, but `get_by_category` returns every
item of the category — expired or not — and the full listing
`list_injected_context` likewise shows every stored item. -/
theorem c2_expiry_filtering :
    (∀ (store : ContextInject.ContextStore) (now : Int) (q : String)
        (cat : Option String) (it : ContextInject.ContextItem),
        ContextInject.isExpired now it = true →
        it ∉ ContextInject.search store now q cat) ∧
    (∀ (store : ContextInject.ContextStore) (cat : String)
        (it : ContextInject.ContextItem),
        it ∈ ContextInject.get_by_category store cat ↔
          it ∈ ContextInject.values store ∧ it.category = cat) ∧
    (∀ (store : ContextInject.ContextStore) (it : ContextInject.ContextItem),
        it ∈ ContextInject.listRows store ↔ it ∈ ContextInject.values store) := by
  refine ⟨?_, ?_, ?_⟩
  · intro store now q cat it hexp hmem
    rw [ContextInject.search, ContextInject.mem_sortByPriorityDesc] at hmem
    have := (List.mem_filter.mp hmem).2
    simp only [hexp, Bool.not_true, Bool.false_and] at this
    exact absurd this (by simp)
  · intro store cat it
    rw [ContextInject.get_by_category, List.mem_filter]
    simp [beq_iff_eq]
  · intro store it
    rw [ContextInject.listRows, ContextInject.mem_sortByPriorityDesc]

/-- C2 witness: at the concrete expired item, `search` omits it while
`get_by_category` and the full listing still contain it. -/
theorem c2_expiry_filtering_witness :
    expiredItem ∉ ContextInject.search expiredStore 20 "content" none ∧
    expiredItem ∈ ContextInject.get_by_category expiredStore "memory" ∧
    expiredItem ∈ ContextInject.listRows expiredStore :=
  ⟨c2_expiry_filtering.1 expiredStore 20 "content" none expiredItem (by decide),
   (c2_expiry_filtering.2.1 expiredStore "memory" expiredItem).mpr
     ⟨by decide, by decide⟩,
   (c2_expiry_filtering.2.2 expiredStore expiredItem).mpr (by decide)⟩

/-- C3 counterexample: the CLI `add` command stores the supplied priority
without clamping (cursor_context_inject.py lines 356-366) — adding with
priority 15 yields a store state holding an item of priority 15 ∉ [1,10],
refuting the claim that every storing operation clamps. -/
theorem c3_counterexample :
    (ContextInject.cli_add ⟨[]⟩ 0 "k" "c" "memory" 15).items =
      [("k", ⟨"k", "c", 15, "memory", 0, none, none⟩)] ∧
    ¬((15 : Int) ≤ 10) := by
  decide

/-- C3 (amended): the `inject_context` tool clamps the supplied priority into
[1,10] before storing, so every item it adds is in range; but the CLI `add`
command and the `summarize_conversation_for_injection` /
`inject_project_context` wrappers store the supplied priority unclamped, so
store states with out-of-range priorities are reachable through them. -/
theorem c3_priority_clamping :
    (∀ (st : ContextInject.ContextStore) (now : Int) (k c cat : String)
        (p : Int) (eh : Option Int) (src : Option String)
        (it : ContextInject.ContextItem),
        it ∈ ContextInject.values (ContextInject.inject_context st now k c cat p eh src) →
        it ∈ ContextInject.values st ∨ (1 ≤ it.priority ∧ it.priority ≤ 10)) ∧
    (∀ (st : ContextInject.ContextStore) (now : Int) (k c cat : String)
        (p : Int) (it : ContextInject.ContextItem),
        it ∈ ContextInject.values (ContextInject.cli_add st now k c cat p) →
        it ∈ ContextInject.values st ∨ it.priority = p) ∧
    (∀ (st : ContextInject.ContextStore) (now : Int) (summary k : String)
        (p : Int) (it : ContextInject.ContextItem),
        it ∈ ContextInject.values (ContextInject.summarize_for_injection st now summary k p) →
        it ∈ ContextInject.values st ∨ it.priority = p) ∧
    (∀ (st : ContextInject.ContextStore) (now : Int) (pn ctx : String)
        (p : Int) (it : ContextInject.ContextItem),
        it ∈ ContextInject.values (ContextInject.inject_project_context st now pn ctx p) →
        it ∈ ContextInject.values st ∨ it.priority = p) := by
  refine ⟨?_, ?_, ?_, ?_⟩
  · intro st now k c cat p eh src it hmem
    rcases ContextInject.mem_values_addItem _ _ _ hmem with h | h
    · exact Or.inl h
    · right
      rw [h]
      unfold ContextInject.clamp
      constructor
      · exact le_max_left 1 _
      · simp only [max_le_iff]
        exact ⟨by norm_num, min_le_left 10 p⟩
  · intro st now k c cat p it hmem
    rcases ContextInject.mem_values_addItem _ _ _ hmem with h | h
    · exact Or.inl h
    · exact Or.inr (by rw [h])
  · intro st now summary k p it hmem
    rcases ContextInject.mem_values_addItem _ _ _ hmem with h | h
    · exact Or.inl h
    · exact Or.inr (by rw [h])
  · intro st now pn ctx p it hmem
    rcases ContextInject.mem_values_addItem _ _ _ hmem with h | h
    · exact Or.inl h
    · exact Or.inr (by rw [h])

/-- C3 witness: the item stored by `inject_context` with supplied priority 99
into the empty store is in range (it is clamped to 10); the item stored by
`cli_add` with priority 15 keeps priority 15. -/
theorem c3_priority_clamping_witness :
    (⟨"k", "c", ContextInject.clamp 99, "memory", 0, none, none⟩ ∈
        ContextInject.values ⟨[]⟩ ∨
      (1 ≤ (ContextInject.clamp 99 : Int) ∧ (ContextInject.clamp 99 : Int) ≤ 10)) ∧
    (⟨"k", "c", 15, "memory", 0, none, none⟩ ∈ ContextInject.values ⟨[]⟩ ∨
      ((15 : Int) = 15)) :=
  ⟨c3_priority_clamping.1 ⟨[]⟩ 0 "k" "c" "memory" 99 none none _ (by decide),
   c3_priority_clamping.2.1 ⟨[]⟩ 0 "k" "c" "memory" 15 _ (by decide)⟩

/-- Version record 1.0 of the C8 example. -/
def rec10 : SyncVersions.VersionRecord :=
  ⟨"1.0", "2024-01-01", [("linux-x64", "https://downloads.example/1.0")]⟩

/-- Version record 1.1 of the C8 example. -/
def rec11 : SyncVersions.VersionRecord :=
  ⟨"1.1", "2024-02-01", [("linux-x64", "https://downloads.example/1.1")]⟩

/-- Version record 1.2 of the C8 example. -/
def rec12 : SyncVersions.VersionRecord :=
  ⟨"1.2", "2024-03-01", [("linux-x64", "https://downloads.example/1.2")]⟩

/-- C8: `compare_versions` returns exactly the upstream records whose version
string is absent from the local registry: membership in the result is
equivalent to membership upstream plus absence of the version string locally,
and on local {1.0, 1.1} versus upstream {1.0, 1.1, 1.2} the result is exactly
the 1.2 record. -/
theorem c8_compare_versions :
    (∀ (g l : SyncVersions.Registry) (v : SyncVersions.VersionRecord),
        v ∈ SyncVersions.compare_versions g l ↔
          v ∈ g.versions ∧
            v.version ∉ l.versions.map (fun w => w.version)) ∧
    SyncVersions.compare_versions ⟨[rec10, rec11, rec12]⟩ ⟨[rec10, rec11]⟩ =
      [rec12] := by
  constructor
  · intro g l v
    rw [SyncVersions.compare_versions, List.mem_filter]
    simp
  · decide

/-- A tool environment in which every tool raises with message "boom". -/
def failingImpl : String → List (String × String) →
    Except String AgentService.ToolResult :=
  fun _ _ => .error "boom"

/-- C9: `execute_tool` never propagates — an unknown tool name gives a
failure result with the literal unknown-tool message, and a tool whose body
raises gives a failure result carrying the exception's message. -/
theorem c9_execute_tool_errors :
    (∀ (impl : String → List (String × String) →
          Except String AgentService.ToolResult)
        (name : String) (params : List (String × String)),
        AgentService.TOOLS.contains name = false →
        AgentService.execute_tool impl name params =
          ⟨false, none, some ("Unknown tool: " ++ name)⟩) ∧
    (∀ (impl : String → List (String × String) →
          Except String AgentService.ToolResult)
        (name : String) (params : List (String × String)) (e : String),
        AgentService.TOOLS.contains name = true →
        impl name params = .error e →
        AgentService.execute_tool impl name params = ⟨false, none, some e⟩) := by
  constructor
  · intro impl name params h
    unfold AgentService.execute_tool
    rw [h]
    simp
  · intro impl name params e h he
    unfold AgentService.execute_tool
    rw [h]
    simp [he]

/-- C9 witness: at the unknown name "frobnicate" and at the catalogued tool
"mouse_move" whose body raises "boom". -/
theorem c9_execute_tool_errors_witness :
    AgentService.execute_tool failingImpl "frobnicate" [] =
      ⟨false, none, some ("Unknown tool: " ++ "frobnicate")⟩ ∧
    AgentService.execute_tool failingImpl "mouse_move" [("x", "5")] =
      ⟨false, none, some "boom"⟩ :=
  ⟨c9_execute_tool_errors.1 failingImpl "frobnicate" [] (by decide),
   c9_execute_tool_errors.2 failingImpl "mouse_move" [("x", "5")] "boom"
     (by decide) rfl⟩

namespace Wire

theorem encodeVarintGo_congr : ∀ f1 f2 v, v ≤ f1 → v ≤ f2 →
    encodeVarintGo f1 v = encodeVarintGo f2 v := by
  intro f1
  induction f1 with
  | zero =>
    intro f2 v h1 h2
    have hv : v = 0 := by omega
    subst hv
    cases f2 with
    | zero => rfl
    | succ f => simp [encodeVarintGo]
  | succ f ih =>
    intro f2 v h1 h2
    cases f2 with
    | zero =>
      have hv : v = 0 := by omega
      subst hv
      simp [encodeVarintGo]
    | succ f2 =>
      simp only [encodeVarintGo]
      split
      · rename_i hv
        congr 1
        have hlt : v >>> 7 < v := by
          rw [Nat.shiftRight_eq_div_pow]
          exact Nat.div_lt_self (by omega) (by norm_num)
        exact ih f2 (v >>> 7) (by omega) (by omega)
      · rfl

theorem encode_varint_eq (v : Nat) :
    encode_varint v =
      if 127 < v then ((v &&& 127) ||| 128) :: encode_varint (v >>> 7)
      else [v] := by
  unfold encode_varint
  cases v with
  | zero => simp [encodeVarintGo]
  | succ k =>
    simp only [encodeVarintGo]
    split
    · rename_i hv
      congr 1
      have hlt : (k + 1) >>> 7 < k + 1 := by
        rw [Nat.shiftRight_eq_div_pow]
        exact Nat.div_lt_self (by omega) (by norm_num)
      exact encodeVarintGo_congr k ((k + 1) >>> 7) ((k + 1) >>> 7)
        (by omega) (by omega)
    · rfl

theorem encode_varint_length_pos (m : Nat) : 1 ≤ (encode_varint m).length := by
  rw [encode_varint_eq]
  split <;> simp

theorem encode_varint_length_le : ∀ k n, n < 2 ^ (7 * (k + 1)) →
    (encode_varint n).length ≤ k + 1 := by
  intro k
  induction k with
  | zero =>
    intro n h
    norm_num at h
    rw [encode_varint_eq, if_neg (by omega)]
    try simp
  | succ k ih =>
    intro n h
    by_cases hn : 127 < n
    · rw [encode_varint_eq, if_pos hn]
      simp only [List.length_cons]
      have hsplit : (2 : Nat) ^ (7 * (k + 1 + 1)) = 2 ^ (7 * (k + 1)) * 2 ^ 7 := by
        have he : 7 * (k + 1 + 1) = 7 * (k + 1) + 7 := by ring
        rw [he, pow_add]
      have hlt : n >>> 7 < 2 ^ (7 * (k + 1)) := by
        rw [Nat.shiftRight_eq_div_pow]
        apply Nat.div_lt_of_lt_mul
        rw [Nat.mul_comm, ← hsplit]
        exact h
      have := ih (n >>> 7) hlt
      omega
    · rw [encode_varint_eq, if_neg hn]
      simp

theorem land_127_of_lt {n : Nat} (h : n < 128) : n &&& 127 = n := by
  have h2 := Nat.and_pow_two_sub_one_eq_mod n 7
  norm_num at h2
  rw [h2]
  exact Nat.mod_eq_of_lt h

theorem land_128_of_lt {n : Nat} (h : n < 128) : n &&& 128 = 0 := by
  apply Nat.eq_of_testBit_eq
  intro i
  simp only [Nat.testBit_and, Nat.zero_testBit]
  by_cases hi : i = 7
  · subst hi
    have hb : n.testBit 7 = false := Nat.testBit_lt_two_pow (by omega)
    simp [hb]
  · have hb : (128 : Nat).testBit i = false := by
      rw [show (128 : Nat) = 2 ^ 7 by norm_num, Nat.testBit_two_pow]
      simp [show ¬(7 = i) by omega]
    simp [hb]

theorem cont_byte_land_127 (n : Nat) : ((n &&& 127) ||| 128) &&& 127 = n &&& 127 := by
  apply Nat.eq_of_testBit_eq
  intro i
  simp only [Nat.testBit_and, Nat.testBit_or,
    show (127 : Nat) = 2 ^ 7 - 1 by norm_num,
    show (128 : Nat) = 2 ^ 7 by norm_num,
    Nat.testBit_two_pow_sub_one, Nat.testBit_two_pow]
  by_cases hi : i < 7
  · by_cases hb : n.testBit i
    · simp [hi, hb, show ¬(7 = i) by omega]
    · simp [hi, hb, show ¬(7 = i) by omega]
  · simp [hi]

theorem cont_byte_land_128 (n : Nat) : ((n &&& 127) ||| 128) &&& 128 = 128 := by
  apply Nat.eq_of_testBit_eq
  intro i
  simp only [Nat.testBit_and, Nat.testBit_or,
    show (127 : Nat) = 2 ^ 7 - 1 by norm_num,
    show (128 : Nat) = 2 ^ 7 by norm_num,
    Nat.testBit_two_pow_sub_one, Nat.testBit_two_pow]
  by_cases hi : 7 = i
  · simp [hi]
  · simp [hi]

theorem varint_or_split (n s : Nat) :
    (n &&& 127) <<< s ||| (n >>> 7) <<< (s + 7) = n <<< s := by
  apply Nat.eq_of_testBit_eq
  intro i
  simp only [Nat.testBit_or, Nat.testBit_shiftLeft, Nat.testBit_and,
    Nat.testBit_shiftRight, show (127 : Nat) = 2 ^ 7 - 1 by norm_num,
    Nat.testBit_two_pow_sub_one]
  by_cases h1 : s ≤ i
  · by_cases h2 : s + 7 ≤ i
    · have e1 : ¬(i - s < 7) := by omega
      have e2 : 7 + (i - (s + 7)) = i - s := by omega
      simp [h1, h2, e1, e2]
    · have e1 : i - s < 7 := by omega
      simp [h1, h2, e1]
  · have h2 : ¬(s + 7 ≤ i) := by omega
    simp [h1, h2]

theorem getD_append_length (pre t : List Nat) :
    (pre ++ t).getD pre.length 0 = t.getD 0 0 := by
  induction pre with
  | nil => rfl
  | cons a l ih => simpa using ih

theorem readVarint_encode_gen (n : Nat) :
    ∀ (pre rest : List Nat) (value shift : Nat),
      shift + 7 * ((encode_varint n).length - 1) ≤ 63 →
      readVarintGo (pre ++ (encode_varint n ++ rest))
          ((encode_varint n).length + rest.length) pre.length value shift =
        .ok (value ||| (n <<< shift), pre.length + (encode_varint n).length) := by
  induction n using Nat.strong_induction_on with
  | _ n ih =>
    intro pre rest value shift hsh
    by_cases h : 127 < n
    · have hlt : n >>> 7 < n := by
        rw [Nat.shiftRight_eq_div_pow]
        exact Nat.div_lt_self (by omega) (by norm_num)
      have hlen1 := encode_varint_length_pos (n >>> 7)
      rw [encode_varint_eq n, if_pos h] at hsh ⊢
      simp only [List.length_cons, List.cons_append] at hsh ⊢
      rw [show (encode_varint (n >>> 7)).length + 1 + rest.length =
        ((encode_varint (n >>> 7)).length + rest.length) + 1 by omega]
      simp only [readVarintGo]
      rw [getD_append_length]
      simp only [List.getD_cons_zero]
      rw [cont_byte_land_128, cont_byte_land_127]
      have hne : ((128 : Nat) == 0) = false := by decide
      rw [hne]
      simp only [Bool.false_eq_true, if_false]
      rw [if_neg (by omega : ¬shift + 7 > 63)]
      rw [List.append_cons]
      have hpre : pre.length + 1 = (pre ++ [(n &&& 127) ||| 128]).length := by
        simp
      rw [hpre]
      rw [ih (n >>> 7) hlt (pre ++ [(n &&& 127) ||| 128]) rest
        (value ||| ((n &&& 127) <<< shift)) (shift + 7) (by omega)]
      rw [Nat.or_assoc, varint_or_split]
      simp only [List.length_append, List.length_singleton]
      rw [Nat.add_assoc]
      rw [Nat.add_comm 1 (encode_varint (n >>> 7)).length]
    · rw [encode_varint_eq n, if_neg h]
      simp only [List.length_singleton, List.singleton_append, List.cons_append]
      rw [show (1 : Nat) + rest.length = rest.length + 1 by omega]
      simp only [readVarintGo]
      rw [getD_append_length]
      simp only [List.getD_cons_zero]
      rw [land_128_of_lt (by omega), land_127_of_lt (by omega)]
      simp

end Wire

/-- C6 counterexample: `read_varint` raises `ValueError("Varint too long")`
(the decoder's 64-bit guard, decode_protobuf.py lines 55-56) on the encoding
of 2^70, so encode/decode does NOT round-trip for every non-negative
integer. -/
theorem c6_counterexample :
    Wire.read_varint (Wire.encode_varint (2 ^ 70)) 0 =
      .error "Varint too long" := by rfl

/-- C6 (amended): the varint pair round-trips for every n < 2^70 (every value
whose encoding is at most 10 bytes — in particular all one-byte values
n < 128 and all multi-byte values up to 2^70 - 1): decoding the encoding,
even with trailing bytes appended, returns exactly n and consumes exactly the
encoded bytes.  For n ≥ 2^70 the decoder instead raises "Varint too long"
(see the counterexample). -/
theorem c6_varint_roundtrip :
    (∀ n : Nat, n < 128 → (Wire.encode_varint n).length = 1) ∧
    (∀ (n : Nat) (rest : List Nat), n < 2 ^ 70 →
      Wire.read_varint (Wire.encode_varint n ++ rest) 0 =
        .ok (n, (Wire.encode_varint n).length)) := by
  constructor
  · intro n hn
    rw [Wire.encode_varint_eq, if_neg (by omega)]
    rfl
  · intro n rest hn
    have hlen := Wire.encode_varint_length_le 9 n (by norm_num at hn ⊢; omega)
    have hpos := Wire.encode_varint_length_pos n
    have := Wire.readVarint_encode_gen n [] rest 0 0 (by omega)
    unfold Wire.read_varint
    simp only [List.nil_append, List.length_nil, Nat.zero_add] at this ⊢
    rw [show (Wire.encode_varint n ++ rest).length - 0 =
      (Wire.encode_varint n).length + rest.length by simp]
    rw [this]
    simp

/-- C6 witness: the two-byte value 300 round-trips with a trailing byte
appended, consuming exactly its two encoded bytes, and 5 encodes in one
byte. -/
theorem c6_varint_roundtrip_witness :
    (Wire.encode_varint 5).length = 1 ∧
    Wire.read_varint (Wire.encode_varint 300 ++ [9]) 0 =
      .ok (300, (Wire.encode_varint 300).length) :=
  ⟨c6_varint_roundtrip.1 5 (by norm_num),
   c6_varint_roundtrip.2 300 [9] (by norm_num)⟩

namespace DocsMcp

theorem afterMid_some {o : Option Nat} {mid : Nat} (h : afterMid o mid = true) :
    ∃ i, o = some i ∧ mid < i := by
  cases o with
  | none => simp [afterMid] at h
  | some i => exact ⟨i, rfl, by simpa [afterMid] using h⟩

theorem pyRfind_some {pat s : List Char} {b e i : Nat}
    (h : pyRfind pat s b e = some i) : b ≤ i ∧ i + pat.length ≤ e := by
  unfold pyRfind at h
  have hmem := List.max?_mem (fun x y => max_choice x y) h
  have hp := (List.mem_filter.mp hmem).2
  simp only [Bool.and_eq_true, decide_eq_true_eq] at hp
  exact ⟨hp.1.1.1, hp.1.1.2⟩

theorem chunkEnd_spec (text : List Char) (start : Nat) :
    chunkEnd text 1500 start = start + 1500 ∨
    (start + 751 ≤ chunkEnd text 1500 start ∧
      chunkEnd text 1500 start < text.length) := by
  simp only [chunkEnd]
  by_cases he : start + 1500 < text.length
  · rw [if_pos he]
    by_cases hp : afterMid
        (pyRfind [Char.ofNat 10, Char.ofNat 10] text start (start + 1500))
        (start + 1500 / 2)
    · rw [if_pos hp]
      obtain ⟨i, hio, hmi⟩ := afterMid_some hp
      obtain ⟨hb, hie⟩ := pyRfind_some hio
      right
      rw [hio]
      simp only [Option.getD_some, List.length_cons, List.length_nil] at hie ⊢
      omega
    · rw [if_neg hp]
      by_cases hs : afterMid (pyRfind ['.', ' '] text start (start + 1500))
          (start + 1500 / 2)
      · rw [if_pos hs]
        obtain ⟨i, hio, hmi⟩ := afterMid_some hs
        obtain ⟨hb, hie⟩ := pyRfind_some hio
        right
        rw [hio]
        simp only [Option.getD_some, List.length_cons, List.length_nil] at hie ⊢
        omega
      · rw [if_neg hs]
        left
        rfl
  · rw [if_neg he]
    left
    rfl

theorem nextStart_progress (text : List Char) (start : Nat)
    (h : start < text.length) :
    start < nextStart text 1500 200 start ∧
    (start + 550 ≤ nextStart text 1500 200 start ∨
      text.length ≤ nextStart text 1500 200 start) := by
  unfold nextStart
  rcases chunkEnd_spec text start with hc | hc
  · rw [hc]
    by_cases he : start + 1500 < text.length
    · rw [if_pos he]
      omega
    · rw [if_neg he]
      omega
  · rw [if_pos hc.2]
    omega

theorem chunkTextGo_isSome (text : List Char) :
    ∀ (fuel start : Nat) (acc : List (List Char)), text.length - start < fuel →
      ∃ r, chunkTextGo text 1500 200 fuel start acc = some r := by
  intro fuel
  induction fuel with
  | zero =>
    intro start acc h
    omega
  | succ f ih =>
    intro start acc h
    simp only [chunkTextGo]
    by_cases hs : start < text.length
    · rw [if_pos hs]
      apply ih
      have := (nextStart_progress text start hs).1
      omega
    · rw [if_neg hs]
      exact ⟨_, rfl⟩

theorem pyStrip_eq_nil {l : List Char} (h : ∀ c ∈ l, pyIsSpace c = true) :
    pyStrip l = [] := by
  unfold pyStrip
  have h1 : l.dropWhile pyIsSpace = [] := List.dropWhile_eq_nil_iff.mpr h
  rw [h1]
  rfl

theorem pyStrip_ne_nil {l : List Char} (h : ∃ c ∈ l, pyIsSpace c = false) :
    pyStrip l ≠ [] := by
  unfold pyStrip
  intro hc
  rw [List.reverse_eq_nil_iff, List.dropWhile_eq_nil_iff] at hc
  have hall : ∀ x ∈ l, pyIsSpace x = true := by
    intro x hx
    rw [← List.takeWhile_append_dropWhile (p := pyIsSpace) (l := l)] at hx
    rcases List.mem_append.mp hx with h1 | h1
    · exact List.mem_takeWhile_imp h1
    · exact hc x (List.mem_reverse.mpr h1)
  obtain ⟨c, hcl, hcs⟩ := h
  rw [hall c hcl] at hcs
  exact absurd hcs (by simp)

theorem chunkTextGo_all_space (text : List Char)
    (hsp : ∀ c ∈ text, pyIsSpace c = true) :
    ∀ (fuel start : Nat) (acc : List (List Char)), text.length - start < fuel →
      chunkTextGo text 1500 200 fuel start acc = some acc := by
  intro fuel
  induction fuel with
  | zero =>
    intro start acc h
    omega
  | succ f ih =>
    intro start acc h
    simp only [chunkTextGo]
    by_cases hs : start < text.length
    · rw [if_pos hs]
      have hslice : chunkSlice text 1500 start = [] := by
        apply pyStrip_eq_nil
        intro c hc
        exact hsp c (List.mem_of_mem_drop (List.mem_of_mem_take hc))
      rw [hslice]
      simp only [List.isEmpty_nil, if_true]
      apply ih
      have := (nextStart_progress text start hs).1
      omega
    · rw [if_neg hs]

end DocsMcp

/-- C10: `chunk_text` with the default parameters terminates on every input:
each loop iteration strictly increases the start offset — when the loop body
runs (start < length), the next start either advances by at least
chunk_size/2 − overlap = 550 or jumps to at least the text's end — and
consequently the loop finishes within the fuel `chunk_text` supplies. -/
theorem c10_chunk_text_termination :
    (∀ (text : List Char) (start : Nat), start < text.length →
      start < DocsMcp.nextStart text DocsMcp.CHUNK_SIZE DocsMcp.CHUNK_OVERLAP start ∧
      (start + (DocsMcp.CHUNK_SIZE / 2 - DocsMcp.CHUNK_OVERLAP) ≤
          DocsMcp.nextStart text DocsMcp.CHUNK_SIZE DocsMcp.CHUNK_OVERLAP start ∨
        text.length ≤
          DocsMcp.nextStart text DocsMcp.CHUNK_SIZE DocsMcp.CHUNK_OVERLAP start)) ∧
    (∀ text : List Char,
      (DocsMcp.chunk_text text DocsMcp.CHUNK_SIZE DocsMcp.CHUNK_OVERLAP).isSome) := by
  constructor
  · intro text start h
    simpa [DocsMcp.CHUNK_SIZE, DocsMcp.CHUNK_OVERLAP] using
      DocsMcp.nextStart_progress text start h
  · intro text
    simp only [DocsMcp.CHUNK_SIZE, DocsMcp.CHUNK_OVERLAP, DocsMcp.chunk_text]
    obtain ⟨r, hr⟩ :=
      DocsMcp.chunkTextGo_isSome text (text.length + 1) 0 [] (by omega)
    rw [hr]
    rfl

/-- C10 witness: at a concrete 2000-character text the theorem applies — the
first iteration's start strictly advances, and the whole run terminates. -/
theorem c10_chunk_text_termination_witness :
    (0 < DocsMcp.nextStart (List.replicate 2000 'a') DocsMcp.CHUNK_SIZE
        DocsMcp.CHUNK_OVERLAP 0 ∧
      (0 + (DocsMcp.CHUNK_SIZE / 2 - DocsMcp.CHUNK_OVERLAP) ≤
          DocsMcp.nextStart (List.replicate 2000 'a') DocsMcp.CHUNK_SIZE
            DocsMcp.CHUNK_OVERLAP 0 ∨
        (List.replicate 2000 'a').length ≤
          DocsMcp.nextStart (List.replicate 2000 'a') DocsMcp.CHUNK_SIZE
            DocsMcp.CHUNK_OVERLAP 0)) ∧
    (DocsMcp.chunk_text (List.replicate 2000 'a') DocsMcp.CHUNK_SIZE
        DocsMcp.CHUNK_OVERLAP).isSome :=
  ⟨c10_chunk_text_termination.1 (List.replicate 2000 'a') 0 (by simp),
   c10_chunk_text_termination.2 (List.replicate 2000 'a')⟩

/-- C7: with the default chunk size 1500, `chunk_text` on a shorter input
containing at least one non-whitespace character returns exactly one chunk,
the stripped input; on a whitespace-only input (of any length, the empty
string included) it returns no chunks. -/
theorem c7_chunk_text_short :
    (∀ text : List Char, text.length < DocsMcp.CHUNK_SIZE →
      (∃ c ∈ text, DocsMcp.pyIsSpace c = false) →
      DocsMcp.chunk_text text DocsMcp.CHUNK_SIZE DocsMcp.CHUNK_OVERLAP =
        some [DocsMcp.pyStrip text]) ∧
    (∀ text : List Char, (∀ c ∈ text, DocsMcp.pyIsSpace c = true) →
      DocsMcp.chunk_text text DocsMcp.CHUNK_SIZE DocsMcp.CHUNK_OVERLAP =
        some []) := by
  constructor
  · intro text hlen hex
    have h0 : 0 < text.length := by
      obtain ⟨c, hc, _⟩ := hex
      exact List.length_pos_of_mem hc
    simp only [DocsMcp.CHUNK_SIZE, DocsMcp.CHUNK_OVERLAP] at hlen ⊢
    have hce : DocsMcp.chunkEnd text 1500 0 = 0 + 1500 := by
      simp only [DocsMcp.chunkEnd]
      rw [if_neg (by omega)]
    have hcs : DocsMcp.chunkSlice text 1500 0 = DocsMcp.pyStrip text := by
      unfold DocsMcp.chunkSlice
      rw [hce]
      simp only [List.drop_zero]
      rw [List.take_of_length_le (by omega)]
    have hns : DocsMcp.nextStart text 1500 200 0 = 0 + 1500 := by
      unfold DocsMcp.nextStart
      rw [hce, if_neg (by omega)]
    have hie : (DocsMcp.pyStrip text).isEmpty = false := by
      rw [Bool.eq_false_iff]
      intro hcontra
      exact DocsMcp.pyStrip_ne_nil hex (List.isEmpty_iff.mp hcontra)
    unfold DocsMcp.chunk_text
    simp only [DocsMcp.chunkTextGo]
    rw [if_pos h0, hcs, hie, hns]
    simp only [Bool.false_eq_true, if_false, List.nil_append]
    rw [show text.length = (text.length - 1) + 1 by omega]
    simp only [DocsMcp.chunkTextGo]
    rw [if_neg (by omega)]
  · intro text hsp
    simp only [DocsMcp.CHUNK_SIZE, DocsMcp.CHUNK_OVERLAP, DocsMcp.chunk_text]
    exact DocsMcp.chunkTextGo_all_space text hsp (text.length + 1) 0 [] (by omega)

/-- C7 witness: on the concrete input "  hi  " (6 characters, one non-space)
the result is the single stripped chunk "hi"; on "   " it is empty. -/
theorem c7_chunk_text_short_witness :
    DocsMcp.chunk_text "  hi  ".data DocsMcp.CHUNK_SIZE DocsMcp.CHUNK_OVERLAP =
      some [DocsMcp.pyStrip "  hi  ".data] ∧
    DocsMcp.chunk_text "   ".data DocsMcp.CHUNK_SIZE DocsMcp.CHUNK_OVERLAP =
      some [] :=
  ⟨c7_chunk_text_short.1 "  hi  ".data (by decide)
    ⟨'h', by decide, by decide⟩,
   c7_chunk_text_short.2 "   ".data (by decide)⟩

namespace Wire

theorem read_varint_encode_at (pre rest : List Nat) (n : Nat) (hn : n < 2 ^ 70) :
    read_varint (pre ++ (encode_varint n ++ rest)) pre.length =
      .ok (n, pre.length + (encode_varint n).length) := by
  have hlen := encode_varint_length_le 9 n (by norm_num at hn ⊢; omega)
  have hpos := encode_varint_length_pos n
  unfold read_varint
  rw [show (pre ++ (encode_varint n ++ rest)).length - pre.length =
    (encode_varint n).length + rest.length by simp]
  have := readVarint_encode_gen n pre rest 0 0 (by omega)
  simpa using this

theorem decodeFrom_end (data : List Nat) (depth maxDepth offset : Nat)
    (h : data.length ≤ offset) : decodeFrom data depth maxDepth offset = [] := by
  rw [decodeFrom.eq_def]
  by_cases hd : depth > maxDepth
  · rw [if_pos hd]
  · rw [if_neg hd, dif_neg (by omega)]

/-- Decoding a single well-formed length-delimited field: the tag varint, the
length varint, then the content; the decoded field's value and children are
exactly what the string-decode attempt on the content dictates. -/
theorem decodeFrom_ld (tag depth maxDepth : Nat) (content : List Nat)
    (hdm : depth ≤ maxDepth) (hw : tag &&& 7 = 2) (hf : 1 ≤ tag >>> 3)
    (htag : tag < 2 ^ 70) (hcl : content.length < 2 ^ 70) :
    decodeFrom (encode_varint tag ++ (encode_varint content.length ++ content))
      depth maxDepth 0 =
      [⟨tag >>> 3, 2, wireTypeName 2,
        (match tryDecodeText content with
         | some sv => PValue.str sv
         | none =>
           if (decodeFrom content (depth + 1) maxDepth 0).isEmpty then
             PValue.bytes content
           else
             PValue.str ("<nested message with " ++
               toString (decodeFrom content (depth + 1) maxDepth 0).length ++
               " fields>")),
        content,
        (match tryDecodeText content with
         | some _ => []
         | none => decodeFrom content (depth + 1) maxDepth 0)⟩] := by
  have hread1 : read_varint
      (encode_varint tag ++ (encode_varint content.length ++ content)) 0 =
      .ok (tag, (encode_varint tag).length) := by
    have := read_varint_encode_at [] (encode_varint content.length ++ content)
      tag htag
    simpa using this
  have hread2 := read_varint_encode_at (encode_varint tag) content
    content.length hcl
  have hdl : 0 < (encode_varint tag ++
      (encode_varint content.length ++ content)).length := by
    have := encode_varint_length_pos tag
    simp
    omega
  have htrunc : ¬((encode_varint tag).length +
      (encode_varint content.length).length + content.length >
      (encode_varint tag ++ (encode_varint content.length ++ content)).length) := by
    simp
    omega
  have hslice : ((encode_varint tag ++
      (encode_varint content.length ++ content)).drop
        ((encode_varint tag).length + (encode_varint content.length).length)).take
      content.length = content := by
    rw [show encode_varint tag ++ (encode_varint content.length ++ content) =
      (encode_varint tag ++ encode_varint content.length) ++ content by
        rw [List.append_assoc]]
    rw [show (encode_varint tag).length + (encode_varint content.length).length =
      (encode_varint tag ++ encode_varint content.length).length by simp]
    rw [List.drop_left]
    exact List.take_length content
  have hend : decodeFrom (encode_varint tag ++
      (encode_varint content.length ++ content)) depth maxDepth
      ((encode_varint tag).length + (encode_varint content.length).length +
        content.length) = [] :=
    decodeFrom_end _ _ _ _ (by simp; omega)
  rw [decodeFrom.eq_def]
  rw [if_neg (by omega), dif_pos hdl]
  split
  · rename_i e heq
    rw [heq] at hread1
    exact absurd hread1 (by simp)
  · rename_i t o1 heq
    rw [heq] at hread1
    simp only [Except.ok.injEq, Prod.mk.injEq] at hread1
    obtain ⟨ht, ho⟩ := hread1
    subst ht
    subst ho
    rw [hw]
    rw [if_neg (by omega)]
    rw [dif_neg (by norm_num), dif_neg (by norm_num), dif_pos rfl]
    split
    · rename_i e heq2
      rw [heq2] at hread2
      exact absurd hread2 (by simp)
    · rename_i len o2 heq2
      rw [heq2] at hread2
      simp only [Except.ok.injEq, Prod.mk.injEq] at hread2
      obtain ⟨hl, ho2⟩ := hread2
      subst hl
      subst ho2
      rw [if_neg htrunc]
      rw [hslice]
      dsimp only
      rw [hend]
      cases htd : tryDecodeText content with
      | some sv => simp
      | none => simp

end Wire

/-- C5: decoding a tagged field of wire type 2 (tag with `tag &&& 7 = 2` and
a non-zero field number, followed by the length varint and the content): when
the content is valid UTF-8 whose every character is printable (or one of
newline/carriage-return/tab), the field decodes as a string value with no
children (no nested decoding); when the content is not such text but itself
decodes to a non-empty field list, the field carries that non-empty child
list (and a nested-message placeholder value). -/
theorem c5_length_delimited_decode :
    ∀ (tag depth maxDepth : Nat) (content : List Nat),
      depth ≤ maxDepth → tag &&& 7 = 2 → 1 ≤ tag >>> 3 →
      tag < 2 ^ 70 → content.length < 2 ^ 70 →
      (∀ s : String, Wire.tryDecodeText content = some s →
        Wire.decode_protobuf (Wire.encode_varint tag ++
            (Wire.encode_varint content.length ++ content)) depth maxDepth =
          [⟨tag >>> 3, 2, "length_delimited", .str s, content, []⟩]) ∧
      (Wire.tryDecodeText content = none →
        Wire.decode_protobuf content (depth + 1) maxDepth ≠ [] →
        Wire.decode_protobuf (Wire.encode_varint tag ++
            (Wire.encode_varint content.length ++ content)) depth maxDepth =
          [⟨tag >>> 3, 2, "length_delimited",
            .str ("<nested message with " ++
              toString (Wire.decode_protobuf content (depth + 1) maxDepth).length ++
              " fields>"),
            content, Wire.decode_protobuf content (depth + 1) maxDepth⟩]) := by
  intro tag depth maxDepth content hdm hw hf htag hcl
  constructor
  · intro s hs
    unfold Wire.decode_protobuf
    rw [Wire.decodeFrom_ld tag depth maxDepth content hdm hw hf htag hcl, hs]
    simp [Wire.wireTypeName]
  · intro hnone hne
    unfold Wire.decode_protobuf at hne ⊢
    rw [Wire.decodeFrom_ld tag depth maxDepth content hdm hw hf htag hcl, hnone]
    have hemp : (Wire.decodeFrom content (depth + 1) maxDepth 0).isEmpty = false := by
      rw [Bool.eq_false_iff]
      intro hc
      exact hne (List.isEmpty_iff.mp hc)
    rw [hemp]
    simp [Wire.wireTypeName]

/-- C5 witness: the concrete field `0a 02 68 69` (field 1, wire type 2,
content "hi") decodes to a string field with no children; the concrete field
`12 04 0a 02 68 69` (field 2, wire type 2, content = that whole inner field,
which is valid UTF-8 but contains the unprintable 0x02) decodes to a field
with exactly one child. -/
theorem c5_length_delimited_decode_witness :
    Wire.decode_protobuf [10, 2, 104, 105] 1 10 =
      [⟨1, 2, "length_delimited", .str "hi", [104, 105], []⟩] ∧
    Wire.decode_protobuf [18, 4, 10, 2, 104, 105] 0 10 =
      [⟨2, 2, "length_delimited", .str "<nested message with 1 fields>",
        [10, 2, 104, 105],
        [⟨1, 2, "length_delimited", .str "hi", [104, 105], []⟩]⟩] := by
  have hinner : Wire.decode_protobuf [10, 2, 104, 105] 1 10 =
      [⟨1, 2, "length_delimited", .str "hi", [104, 105], []⟩] :=
    (c5_length_delimited_decode 10 1 10 [104, 105] (by norm_num) (by decide)
      (by decide) (by norm_num) (by norm_num)).1 "hi" (by decide)
  refine ⟨hinner, ?_⟩
  have houter := (c5_length_delimited_decode 18 0 10 [10, 2, 104, 105]
    (by norm_num) (by decide) (by decide) (by norm_num) (by norm_num)).2
    (by decide) (by rw [hinner]; exact List.cons_ne_nil _ _)
  rw [hinner] at houter
  exact houter

namespace MD5

theorem md5Block_lt (st : Nat × Nat × Nat × Nat) (m : List Nat) :
    (md5Block st m).1 < M32 ∧ (md5Block st m).2.1 < M32 ∧
    (md5Block st m).2.2.1 < M32 ∧ (md5Block st m).2.2.2 < M32 := by
  unfold md5Block
  refine ⟨?_, ?_, ?_, ?_⟩ <;> exact Nat.mod_lt _ (by norm_num [M32])

theorem md5Words_lt (msg : List Nat) :
    (md5Words msg).1 < M32 ∧ (md5Words msg).2.1 < M32 ∧
    (md5Words msg).2.2.1 < M32 ∧ (md5Words msg).2.2.2 < M32 := by
  unfold md5Words
  have h : ∀ (bl : List (List Nat)) (st : Nat × Nat × Nat × Nat),
      st.1 < M32 → st.2.1 < M32 → st.2.2.1 < M32 → st.2.2.2 < M32 →
      (bl.foldl (fun st blk => md5Block st (toWords blk)) st).1 < M32 ∧
      (bl.foldl (fun st blk => md5Block st (toWords blk)) st).2.1 < M32 ∧
      (bl.foldl (fun st blk => md5Block st (toWords blk)) st).2.2.1 < M32 ∧
      (bl.foldl (fun st blk => md5Block st (toWords blk)) st).2.2.2 < M32 := by
    intro bl
    induction bl with
    | nil =>
      intro st h1 h2 h3 h4
      exact ⟨h1, h2, h3, h4⟩
    | cons b t ih =>
      intro st h1 h2 h3 h4
      simp only [List.foldl_cons]
      have hb := md5Block_lt st (toWords b)
      exact ih _ hb.1 hb.2.1 hb.2.2.1 hb.2.2.2
  exact h _ _ (by norm_num [M32]) (by norm_num [M32]) (by norm_num [M32])
    (by norm_num [M32])

/-- The four digest words packed into a single number; MD5's whole output is
determined by this value, which is below 2^128. -/
def digestPack (msg : List Nat) : Nat :=
  (md5Words msg).1 + M32 * ((md5Words msg).2.1 +
    M32 * ((md5Words msg).2.2.1 + M32 * (md5Words msg).2.2.2))

theorem digestPack_lt (msg : List Nat) : digestPack msg < 2 ^ 128 := by
  have h := md5Words_lt msg
  unfold digestPack
  simp only [M32] at h ⊢
  have h128 : (2 : Nat) ^ 128 =
      340282366920938463463374607431768211456 := by norm_num
  rw [h128]
  omega

theorem md5Hex_congr_of_pack (m1 m2 : List Nat)
    (h : digestPack m1 = digestPack m2) : md5Hex m1 = md5Hex m2 := by
  have h1 := md5Words_lt m1
  have h2 := md5Words_lt m2
  have hw : md5Words m1 = md5Words m2 := by
    unfold digestPack at h
    simp only [M32] at h h1 h2
    have e1 : (md5Words m1).1 = (md5Words m2).1 := by omega
    have e2 : (md5Words m1).2.1 = (md5Words m2).2.1 := by omega
    have e3 : (md5Words m1).2.2.1 = (md5Words m2).2.2.1 := by omega
    have e4 : (md5Words m1).2.2.2 = (md5Words m2).2.2.2 := by omega
    exact Prod.ext e1 (Prod.ext e2 (Prod.ext e3 e4))
  unfold md5Hex md5Bytes
  rw [hw]

end MD5

namespace ChatDb

/-- The 2^129 distinct strings of 129 characters over the alphabet {a, b},
used for the counting argument below. -/
def bitString (g : Fin 129 → Bool) : String :=
  String.mk (List.ofFn (fun i => if g i then 'a' else 'b'))

theorem bitString_injective : Function.Injective bitString := by
  intro g1 g2 h
  unfold bitString at h
  have hd : List.ofFn (fun i => if g1 i then 'a' else 'b') =
      List.ofFn (fun i => if g2 i then 'a' else 'b') := congrArg String.data h
  rw [List.ofFn_inj] at hd
  funext i
  have hi := congrFun hd i
  by_cases h1 : g1 i
  · by_cases h2 : g2 i
    · rw [h1, h2]
    · rw [if_pos h1, if_neg h2] at hi
      exact absurd hi (by decide)
  · by_cases h2 : g2 i
    · rw [if_neg h1, if_pos h2] at hi
      exact absurd hi (by decide)
    · rw [Bool.eq_false_iff.mpr h1, Bool.eq_false_iff.mpr h2]

/-- The composite map whose non-injectivity (by counting) produces an MD5
collision between two distinct single-bubble raw values. -/
def digestOfBits (g : Fin 129 → Bool) : Fin (2 ^ 128) :=
  ⟨MD5.digestPack (MD5.utf8Encode (bitString g)),
    MD5.digestPack_lt (MD5.utf8Encode (bitString g))⟩

theorem contentString_singleton (k v : String) (p : ParseOutcome) :
    contentString [⟨k, v, p⟩] = v := by
  apply String.ext
  simp [contentString, String.join_eq]

theorem flatten_set_ne (vs : List (List Char)) :
    ∀ (i : Nat) (h : i < vs.length) (d : List Char),
      d ≠ vs.get ⟨i, h⟩ → (vs.set i d).flatten ≠ vs.flatten := by
  induction vs with
  | nil =>
    intro i h
    exact absurd h (Nat.not_lt_zero i)
  | cons v t ih =>
    intro i h d hne
    cases i with
    | zero =>
      simp only [List.set_cons_zero, List.flatten_cons]
      simp only [List.get] at hne
      intro hc
      exact hne (List.append_cancel_right hc)
    | succ j =>
      simp only [List.set_cons_succ, List.flatten_cons]
      simp only [List.get] at hne
      intro hc
      have hj : j < t.length := by
        simp only [List.length_cons] at h
        omega
      exact ih j hj d hne (List.append_cancel_left hc)

end ChatDb

/-- C4 counterexample: the MD5 content hash is NOT injective on single-bubble
changes — by counting, among the 2^129 distinct 129-character raw values over
{a, b} two must share their 2^128-valued digest, so there exist two
conversations differing only in the value of their single bubble yet having
equal content hashes.  (No such collision is known concretely; this
establishes existence.) -/
theorem c4_counterexample :
    ∃ v1 v2 : String, v1 ≠ v2 ∧
      ChatDb.contentHash [⟨"k", v1, .err "e"⟩] =
        ChatDb.contentHash [⟨"k", v2, .err "e"⟩] := by
  have hcard : Fintype.card (Fin (2 ^ 128)) < Fintype.card (Fin 129 → Bool) := by
    rw [Fintype.card_fun, Fintype.card_bool, Fintype.card_fin, Fintype.card_fin]
    norm_num
  obtain ⟨g1, g2, hne, heq⟩ :=
    Fintype.exists_ne_map_eq_of_card_lt ChatDb.digestOfBits hcard
  refine ⟨ChatDb.bitString g1, ChatDb.bitString g2, ?_, ?_⟩
  · intro hc
    exact hne (ChatDb.bitString_injective hc)
  · have hpack : MD5.digestPack (MD5.utf8Encode (ChatDb.bitString g1)) =
        MD5.digestPack (MD5.utf8Encode (ChatDb.bitString g2)) := by
      have h2 := congrArg Fin.val heq
      simpa only [ChatDb.digestOfBits] using h2
    unfold ChatDb.contentHash
    rw [ChatDb.contentString_singleton, ChatDb.contentString_singleton]
    exact MD5.md5Hex_congr_of_pack _ _ hpack

/-- C4 (amended): the conversation content hash is a deterministic function
of the ordered sequence of raw bubble values — two bubble lists with the same
raw values hash identically — and changing the value of any single bubble
always changes the hash input (the concatenated raw-value string).  The hash
itself then differs except when MD5 collides on the two concatenations;
collisions exist by counting (see the counterexample) but none is forced by a
single-bubble change. -/
theorem c4_content_hash :
    (∀ bs1 bs2 : List ChatDb.Bubble,
        bs1.map (fun b => b.value) = bs2.map (fun b => b.value) →
        ChatDb.contentHash bs1 = ChatDb.contentHash bs2) ∧
    (∀ (bs : List ChatDb.Bubble) (i : Nat) (h : i < bs.length)
        (b' : ChatDb.Bubble),
        b'.value ≠ (bs.get ⟨i, h⟩).value →
        ChatDb.contentString (bs.set i b') ≠ ChatDb.contentString bs) := by
  constructor
  · intro bs1 bs2 h
    unfold ChatDb.contentHash ChatDb.contentString
    rw [h]
  · intro bs i h b' hne hc
    unfold ChatDb.contentString at hc
    rw [String.join_eq, String.join_eq] at hc
    have hflat : ((bs.set i b').map (fun b => b.value) |>.map String.data).flatten =
        (bs.map (fun b => b.value) |>.map String.data).flatten := by
      simpa using congrArg String.data hc
    rw [List.map_set, List.map_set] at hflat
    refine ChatDb.flatten_set_ne ((bs.map (fun b => b.value)).map String.data)
      i (by simpa using h) b'.value.data ?_ hflat
    intro hcontra
    simp only [List.get_eq_getElem, List.getElem_map] at hcontra
    exact hne (String.ext hcontra)

/-- C4 witness: two single-bubble lists with equal raw values (differing in
key and parse outcome) hash identically, and changing the single bubble's
value from "x" to "y" changes the hash input. -/
theorem c4_content_hash_witness :
    ChatDb.contentHash [⟨"k1", "v", .err "e"⟩] =
      ChatDb.contentHash [⟨"k2", "v", .ok none none none none⟩] ∧
    ChatDb.contentString [⟨"k", "y", .err "e"⟩] ≠
      ChatDb.contentString [⟨"k", "x", .err "e"⟩] :=
  ⟨c4_content_hash.1 [⟨"k1", "v", .err "e"⟩]
      [⟨"k2", "v", .ok none none none none⟩] rfl,
   c4_content_hash.2 [⟨"k", "x", .err "e"⟩] 0 (by simp)
     ⟨"k", "y", .err "e"⟩ (by decide)⟩

namespace ChatDb

theorem isEmpty_false_of_ne {α : Type} {l : List α} (h : l ≠ []) :
    l.isEmpty = false := by
  cases l with
  | nil => exact absurd rfl h
  | cons a t => rfl

theorem processConv_empty (version : String) (s : DBState) (r : ImportResults)
    (cid : String) : processConv version (s, r) (cid, []) = (s, r) := by
  simp [processConv]

theorem processConv_skip (version : String) (s : DBState) (r : ImportResults)
    (cid : String) (bs : List Bubble) (hne : bs ≠ [])
    (hh : hashExists s (contentHash bs) = true) :
    processConv version (s, r) (cid, bs) =
      (s, { r with skipped := r.skipped + 1 }) := by
  simp [processConv, isEmpty_false_of_ne hne, hh]

theorem processConv_noMsgs (version : String) (s : DBState) (r : ImportResults)
    (cid : String) (bs : List Bubble) (hne : bs ≠ [])
    (hh : hashExists s (contentHash bs) = false)
    (hm : (parseMessages bs 0 []).1 = []) :
    processConv version (s, r) (cid, bs) =
      (s, { r with errors := r.errors ++ (parseMessages bs 0 []).2.2 }) := by
  simp [processConv, isEmpty_false_of_ne hne, hh, hm]

theorem processConv_insert (version : String) (s : DBState) (r : ImportResults)
    (cid : String) (bs : List Bubble) (hne : bs ≠ [])
    (hh : hashExists s (contentHash bs) = false)
    (hm : (parseMessages bs 0 []).1 ≠ []) :
    processConv version (s, r) (cid, bs) =
      ({ conversations := s.conversations ++
          [⟨cid, version, mkTitle (parseMessages bs 0 []).2.1,
            (parseMessages bs 0 []).1.length, contentHash bs⟩],
         messages := insertMessages cid s.messages (parseMessages bs 0 []).1 },
       { imported := r.imported + 1, skipped := r.skipped,
         errors := r.errors ++ (parseMessages bs 0 []).2.2 }) := by
  simp [processConv, isEmpty_false_of_ne hne, hh, isEmpty_false_of_ne hm]

theorem mem_hashes_iff (s : DBState) (h : String) :
    hashExists s h = true ↔ h ∈ hashes s := by
  unfold hashExists hashes
  rw [List.any_eq_true]
  constructor
  · rintro ⟨c, hc, hb⟩
    exact List.mem_map.mpr ⟨c, hc, beq_iff_eq.mp hb⟩
  · intro hm
    obtain ⟨c, hc, he⟩ := List.mem_map.mp hm
    exact ⟨c, hc, beq_iff_eq.mpr he⟩

theorem hashExists_processConv (version : String) (acc : DBState × ImportResults)
    (c : String × List Bubble) (h : String) (hx : hashExists acc.1 h = true) :
    hashExists (processConv version acc c).1 h = true := by
  obtain ⟨s, r⟩ := acc
  obtain ⟨cid, bs⟩ := c
  by_cases hbs : bs = []
  · subst hbs
    rw [processConv_empty]
    exact hx
  · by_cases hh : hashExists s (contentHash bs)
    · rw [processConv_skip version s r cid bs hbs hh]
      exact hx
    · have hh2 : hashExists s (contentHash bs) = false := by simpa using hh
      by_cases hm : (parseMessages bs 0 []).1 = []
      · rw [processConv_noMsgs version s r cid bs hbs hh2 hm]
        exact hx
      · rw [processConv_insert version s r cid bs hbs hh2 hm]
        unfold hashExists at hx ⊢
        simp only [List.any_append]
        simp [hx]

theorem hashExists_fold (version : String) (host : List (String × List Bubble)) :
    ∀ (acc : DBState × ImportResults) (h : String), hashExists acc.1 h = true →
      hashExists (host.foldl (processConv version) acc).1 h = true := by
  induction host with
  | nil =>
    intro acc h hx
    exact hx
  | cons a t ih =>
    intro acc h hx
    simp only [List.foldl_cons]
    exact ih _ h (hashExists_processConv version acc a h hx)

theorem hashExists_processConv_self (version : String)
    (acc : DBState × ImportResults) (cid : String) (bs : List Bubble)
    (hne : bs ≠ []) (hm : (parseMessages bs 0 []).1 ≠ []) :
    hashExists (processConv version acc (cid, bs)).1 (contentHash bs) = true := by
  obtain ⟨s, r⟩ := acc
  by_cases hh : hashExists s (contentHash bs)
  · rw [processConv_skip version s r cid bs hne hh]
    exact hh
  · have hh2 : hashExists s (contentHash bs) = false := by simpa using hh
    rw [processConv_insert version s r cid bs hne hh2 hm]
    unfold hashExists
    simp [List.any_append]

theorem hash_covered_after_import (version : String)
    (host : List (String × List Bubble)) :
    ∀ (acc : DBState × ImportResults) (cid : String) (bs : List Bubble),
      (cid, bs) ∈ host → (parseMessages bs 0 []).1 ≠ [] →
      hashExists (host.foldl (processConv version) acc).1 (contentHash bs) = true := by
  induction host with
  | nil =>
    intro acc cid bs hmem
    exact absurd hmem (List.not_mem_nil _)
  | cons a t ih =>
    intro acc cid bs hmem hm
    have hne : bs ≠ [] := by
      intro hbs
      subst hbs
      exact hm rfl
    rcases List.mem_cons.mp hmem with heq | hmem2
    · simp only [List.foldl_cons]
      rw [← heq]
      exact hashExists_fold version t _ _
        (hashExists_processConv_self version acc cid bs hne hm)
    · simp only [List.foldl_cons]
      exact ih _ cid bs hmem2 hm

end ChatDb

namespace ChatDb

theorem import_inert (version : String) (s : DBState) :
    ∀ host : List (String × List Bubble),
      (∀ c ∈ host, c.2 ≠ [] → hashExists s (contentHash c.2) = false →
        (parseMessages c.2 0 []).1 = []) →
      ∀ r : ImportResults,
        (host.foldl (processConv version) (s, r)).1 = s ∧
        (host.foldl (processConv version) (s, r)).2.imported = r.imported ∧
        (host.foldl (processConv version) (s, r)).2.skipped =
          r.skipped + host.countP
            (fun c => !c.2.isEmpty && hashExists s (contentHash c.2)) := by
  intro host
  induction host with
  | nil =>
    intro hin r
    exact ⟨rfl, rfl, by simp⟩
  | cons a t ih =>
    intro hin r
    obtain ⟨cid, bs⟩ := a
    have hin2 : ∀ c ∈ t, c.2 ≠ [] → hashExists s (contentHash c.2) = false →
        (parseMessages c.2 0 []).1 = [] :=
      fun c hc => hin c (List.mem_cons_of_mem _ hc)
    simp only [List.foldl_cons, List.countP_cons]
    by_cases hbs : bs = []
    · subst hbs
      rw [processConv_empty]
      obtain ⟨e1, e2, e3⟩ := ih hin2 r
      refine ⟨e1, e2, ?_⟩
      rw [e3]
      simp
    · by_cases hh : hashExists s (contentHash bs)
      · rw [processConv_skip version s r cid bs hbs hh]
        obtain ⟨e1, e2, e3⟩ := ih hin2 { r with skipped := r.skipped + 1 }
        refine ⟨e1, e2, ?_⟩
        rw [e3]
        simp only [isEmpty_false_of_ne hbs, Bool.not_false, Bool.true_and, hh,
          if_true]
        omega
      · have hh2 : hashExists s (contentHash bs) = false := by simpa using hh
        have hm := hin (cid, bs) (List.mem_cons_self _ _) hbs hh2
        rw [processConv_noMsgs version s r cid bs hbs hh2 hm]
        obtain ⟨e1, e2, e3⟩ := ih hin2
          { r with errors := r.errors ++ (parseMessages bs 0 []).2.2 }
        refine ⟨e1, e2, ?_⟩
        rw [e3]
        simp [hh2]

theorem hashes_processConv_nodup (version : String)
    (acc : DBState × ImportResults) (c : String × List Bubble)
    (hnd : (hashes acc.1).Nodup) :
    (hashes (processConv version acc c).1).Nodup := by
  obtain ⟨s, r⟩ := acc
  obtain ⟨cid, bs⟩ := c
  by_cases hbs : bs = []
  · subst hbs
    rw [processConv_empty]
    exact hnd
  · by_cases hh : hashExists s (contentHash bs)
    · rw [processConv_skip version s r cid bs hbs hh]
      exact hnd
    · have hh2 : hashExists s (contentHash bs) = false := by simpa using hh
      by_cases hm : (parseMessages bs 0 []).1 = []
      · rw [processConv_noMsgs version s r cid bs hbs hh2 hm]
        exact hnd
      · rw [processConv_insert version s r cid bs hbs hh2 hm]
        have hnotmem : contentHash bs ∉ hashes s := by
          intro hmem
          rw [← mem_hashes_iff] at hmem
          rw [hmem] at hh2
          exact absurd hh2 (by simp)
        unfold hashes at hnd hnotmem ⊢
        simp only [List.map_append, List.map_cons, List.map_nil]
        rw [List.nodup_append]
        refine ⟨hnd, by simp, ?_⟩
        intro x hx
        simp only [List.mem_singleton]
        intro hc
        rw [hc] at hx
        exact hnotmem hx

theorem hashes_fold_nodup (version : String)
    (host : List (String × List Bubble)) :
    ∀ acc : DBState × ImportResults, (hashes acc.1).Nodup →
      (hashes (host.foldl (processConv version) acc).1).Nodup := by
  induction host with
  | nil =>
    intro acc hnd
    exact hnd
  | cons a t ih =>
    intro acc hnd
    simp only [List.foldl_cons]
    exact ih _ (hashes_processConv_nodup version acc a hnd)

end ChatDb

/-- C1: the duplicate-import guard of `import_from_cursor`.
(i) A conversation whose content hash is already stored is skipped entirely:
the skipped counter is incremented and the database state — conversation rows
and message rows — is unchanged.
(ii) Running the same import twice leaves the state of the first run exactly
as it was, the second run importing 0 conversations and reporting
as skipped precisely the conversations whose (nonempty) bubble content hashes
to an already-stored hash.
(iii) Import never duplicates a content hash, and
(iv) from a store with distinct hashes, after the double import a conversation
with parseable content is stored exactly once (its hash appears on exactly one
row). -/
theorem c1_import_dedup :
    (∀ (version : String) (s : ChatDb.DBState) (r : ChatDb.ImportResults)
        (cid : String) (bs : List ChatDb.Bubble), bs ≠ [] →
        ChatDb.hashExists s (ChatDb.contentHash bs) = true →
        ChatDb.processConv version (s, r) (cid, bs) =
          (s, { r with skipped := r.skipped + 1 })) ∧
    (∀ (version : String) (host : List (String × List ChatDb.Bubble))
        (s0 : ChatDb.DBState),
        (ChatDb.importFromCursor version host
            (ChatDb.importFromCursor version host s0).1).1 =
          (ChatDb.importFromCursor version host s0).1 ∧
        (ChatDb.importFromCursor version host
            (ChatDb.importFromCursor version host s0).1).2.imported = 0 ∧
        (ChatDb.importFromCursor version host
            (ChatDb.importFromCursor version host s0).1).2.skipped =
          host.countP (fun c => !c.2.isEmpty && ChatDb.hashExists
            (ChatDb.importFromCursor version host s0).1
            (ChatDb.contentHash c.2))) ∧
    (∀ (version : String) (host : List (String × List ChatDb.Bubble))
        (s0 : ChatDb.DBState), (ChatDb.hashes s0).Nodup →
        (ChatDb.hashes (ChatDb.importFromCursor version host s0).1).Nodup) ∧
    (∀ (version : String) (host : List (String × List ChatDb.Bubble))
        (s0 : ChatDb.DBState) (cid : String) (bs : List ChatDb.Bubble),
        (cid, bs) ∈ host → (ChatDb.parseMessages bs 0 []).1 ≠ [] →
        (ChatDb.hashes s0).Nodup →
        (ChatDb.hashes (ChatDb.importFromCursor version host
            (ChatDb.importFromCursor version host s0).1).1).count
          (ChatDb.contentHash bs) = 1) := by
  have hinert : ∀ (version : String) (host : List (String × List ChatDb.Bubble))
      (s0 : ChatDb.DBState), ∀ c ∈ host, c.2 ≠ [] →
      ChatDb.hashExists (ChatDb.importFromCursor version host s0).1
        (ChatDb.contentHash c.2) = false →
      (ChatDb.parseMessages c.2 0 []).1 = [] := by
    intro version host s0 c hc hne hhf
    by_contra hm
    have := ChatDb.hash_covered_after_import version host
      (s0, ⟨0, 0, []⟩) c.1 c.2 (by simpa using hc) hm
    rw [ChatDb.importFromCursor] at hhf
    rw [this] at hhf
    exact absurd hhf (by simp)
  refine ⟨?_, ?_, ?_, ?_⟩
  · intro version s r cid bs hne hh
    exact ChatDb.processConv_skip version s r cid bs hne hh
  · intro version host s0
    obtain ⟨e1, e2, e3⟩ := ChatDb.import_inert version
      (ChatDb.importFromCursor version host s0).1 host
      (hinert version host s0) ⟨0, 0, []⟩
    refine ⟨e1, e2, ?_⟩
    have h3 : (ChatDb.importFromCursor version host
        (ChatDb.importFromCursor version host s0).1).2.skipped =
        0 + host.countP (fun c => !c.2.isEmpty && ChatDb.hashExists
          (ChatDb.importFromCursor version host s0).1
          (ChatDb.contentHash c.2)) := e3
    omega
  · intro version host s0 hnd
    exact ChatDb.hashes_fold_nodup version host (s0, ⟨0, 0, []⟩) hnd
  · intro version host s0 cid bs hmem hm hnd
    have hstate := (ChatDb.import_inert version
      (ChatDb.importFromCursor version host s0).1 host
      (hinert version host s0) ⟨0, 0, []⟩).1
    rw [ChatDb.importFromCursor, hstate]
    have hcov := ChatDb.hash_covered_after_import version host
      (s0, ⟨0, 0, []⟩) cid bs hmem hm
    have hmem2 : ChatDb.contentHash bs ∈
        ChatDb.hashes (ChatDb.importFromCursor version host s0).1 := by
      rw [← ChatDb.mem_hashes_iff]
      exact hcov
    have hnd2 := ChatDb.hashes_fold_nodup version host (s0, ⟨0, 0, []⟩) hnd
    exact List.count_eq_one_of_mem hnd2 hmem2

/-- A concrete parseable bubble for the C1 witness. -/
def c1Bubble : ChatDb.Bubble :=
  ⟨"bubbleId:c1:m1", "v1", .ok (some 1) (some "hello") none (some "b1")⟩

/-- A concrete one-conversation host database for the C1 witness. -/
def c1Host : List (String × List ChatDb.Bubble) := [("c1", [c1Bubble])]

/-- The archive state after the first import of `c1Host` into an empty
archive. -/
def c1State : ChatDb.DBState :=
  (ChatDb.importFromCursor "default" c1Host ⟨[], []⟩).1

/-- C1 witness: on the concrete host, processing the conversation against the
post-import state only increments the skipped counter; the second import
imports 0; and after importing twice from empty, the conversation's hash is
stored on exactly one row. -/
theorem c1_import_dedup_witness :
    ChatDb.processConv "default" (c1State, ⟨0, 0, []⟩) ("c1", [c1Bubble]) =
      (c1State, ⟨0, 1, []⟩) ∧
    (ChatDb.importFromCursor "default" c1Host c1State).2.imported = 0 ∧
    (ChatDb.hashes (ChatDb.importFromCursor "default" c1Host
        (ChatDb.importFromCursor "default" c1Host ⟨[], []⟩).1).1).count
      (ChatDb.contentHash [c1Bubble]) = 1 :=
  ⟨c1_import_dedup.1 "default" c1State ⟨0, 0, []⟩ "c1" [c1Bubble]
      (by decide) (by decide),
   (c1_import_dedup.2.1 "default" c1Host ⟨[], []⟩).2.1,
   c1_import_dedup.2.2.2 "default" c1Host ⟨[], []⟩ "c1" [c1Bubble]
      (by decide) (by decide) (by decide)⟩
